import Mathlib

/-!
The ocr2keepers registry client, simulated store and simulated registry.

A shallow embedding of

* `pkg/chain/evmregistry.go` (upkeep key wire format, paging of active upkeep
  ids, the two-phase `check` worker and `CheckUpkeep`),
* `cmd/simv2/simulators/database.go` (the in-memory `SimulatedDatabase`),
* `cmd/simv2/simulators/registry.go` (`SimulatedContract.CheckUpkeep`), and
* `internal/keepers/factory.go` (`NewReportingPlugin`),

followed by theorems about them.  Go strings are Lean strings, `*big.Int` is
`Int`, Go maps are association lists with unique keys, and a Go `error` is a
value of `GoError` (`Option GoError` where `nil` is possible).
-/

deriving instance DecidableEq for Except

namespace Ocr2keepers

/-! ## Errors -/

/-- The package-level error values of `pkg/chain/evmregistry.go`. -/
inductive Sentinel
  | ErrRegistryCallFailure
  | ErrBlockKeyNotParsable
  | ErrUpkeepKeyNotParsable
  | ErrInitializationFailure
  | ErrContextCancelled
  deriving DecidableEq, Repr

/-- A non-nil Go `error`.
* `sentinel s` is one of the package-level values;
* `plain msg` is an error without a wrapped cause (`fmt.Errorf` without `%w`, or an
  error produced by a collaborator such as the RPC client);
* `wrap inner msg` is `fmt.Errorf("...%w...", inner)` or `errors.Wrapf(inner, ...)`,
  with `msg` the formatted text;
* `multi a b` is `multierr.Append(a, b)`. -/
inductive GoError
  | sentinel (s : Sentinel)
  | plain (msg : String)
  | wrap (inner : GoError) (msg : String)
  | multi (a b : GoError)
  deriving DecidableEq, Repr

/-- The text of a sentinel error. -/
def Sentinel.text : Sentinel → String
  | .ErrRegistryCallFailure => "registry chain call failure"
  | .ErrBlockKeyNotParsable => "block identifier not parsable"
  | .ErrUpkeepKeyNotParsable => "upkeep key not parsable"
  | .ErrInitializationFailure => "failed to initialize registry"
  | .ErrContextCancelled => "context was cancelled"

/-- The method `Error()`. -/
def GoError.Error : GoError → String
  | .sentinel s => s.text
  | .plain msg => msg
  | .wrap _ msg => msg
  | .multi a b => a.Error ++ "; " ++ b.Error

/-- The test `errors.Is(e, s)` for a sentinel `s`. -/
def GoError.Is : GoError → Sentinel → Bool
  | .sentinel s', s => decide (s' = s)
  | .plain _, _ => false
  | .wrap inner _, s => inner.Is s
  | .multi a b, s => a.Is s || b.Is s

/-- The call `multierr.AppendInto(&err, e)` with `e` non-nil: the new value of `err`. -/
def multierrAppendInto (err : Option GoError) (e : GoError) : Option GoError :=
  match err with
  | none => some e
  | some e0 => some (.multi e0 e)

/-! ## Strings and decimal integers -/

/-- The test `strings.Contains(s, sub)` on character lists. -/
def containsChars (sub : List Char) : List Char → Bool
  | [] => sub.isEmpty
  | c :: cs => sub.isPrefixOf (c :: cs) || containsChars sub cs

/-- The test `strings.Contains(s, sub)`. -/
def stringsContains (s sub : String) : Bool :=
  containsChars sub.toList s.toList

/-- The pieces of `strings.Split(s, sep)` for a one-character separator, on character
lists: the input is cut at every occurrence of `sep`; an input without `sep` gives one
piece. -/
def splitChars (sep : Char) : List Char → List (List Char)
  | [] => [[]]
  | c :: cs =>
    if c = sep then [] :: splitChars sep cs
    else
      match splitChars sep cs with
      | [] => [[c]]
      | p :: ps => (c :: p) :: ps

/-- The one-character separator of an upkeep key. -/
def separatorChar : Char := '|'

/-- The constant `separator`. -/
def separator : String := String.singleton separatorChar

/-- The call `strings.Split(s, separator)`. -/
def stringsSplit (s : String) : List String :=
  (splitChars separatorChar s.toList).map String.mk

/-- A character list made of decimal digits only. -/
def AllDigits (cs : List Char) : Prop := ∀ c ∈ cs, '0' ≤ c ∧ c ≤ '9'

/-- The value of a decimal digit character, `none` for any other character. -/
def digitValue (c : Char) : Option Nat :=
  if '0' ≤ c ∧ c ≤ '9' then some (c.toNat - '0'.toNat) else none

/-- Reads a run of decimal digits into the number it denotes, most significant digit
first, starting from the accumulator `acc`; `none` when a character is not a digit. -/
def scanDigits : List Char → Nat → Option Nat
  | [], acc => some acc
  | c :: cs, acc =>
    match digitValue c with
    | none => none
    | some d => scanDigits cs (10 * acc + d)

/-- The magnitude part of `big.Int.SetString(s, 10)`: at least one digit, only digits. -/
def scanMagnitude (cs : List Char) : Option Nat :=
  match cs with
  | [] => none
  | _ :: _ => scanDigits cs 0

/-- The call `new(big.Int).SetString(s, 10)`: an optional sign `+` or `-` followed by
one or more decimal digits and nothing else; `none` is the `ok = false` return. -/
def SetString (s : String) : Option Int :=
  match s.toList with
  | '-' :: cs => (scanMagnitude cs).map (fun (n : Nat) => -(n : Int))
  | '+' :: cs => (scanMagnitude cs).map (fun (n : Nat) => (n : Int))
  | cs => (scanMagnitude cs).map (fun (n : Nat) => (n : Int))

/-- The method `String()` of `*big.Int`: the decimal text, with a leading `-` for a
negative number. -/
def bigString (x : Int) : String :=
  if x < 0 then "-" ++ Nat.repr x.natAbs else Nat.repr x.natAbs

/-- The method `Int64()` of `*big.Int`: the low 64 bits of the magnitude, negated for
a negative number, read as a two's complement 64-bit integer. -/
def bigInt64 (x : Int) : Int :=
  let lo : Int := ((x.natAbs % 2 ^ 64 : Nat) : Int)
  let u : Int := (if x < 0 then -lo else lo) % 2 ^ 64
  if u < 2 ^ 63 then u else u - 2 ^ 64

/-! ## Upkeep keys -/

/-- The type `types.UpkeepKey`; its zero value is the empty key. -/
abbrev UpkeepKey := String

/-- The type `types.BlockKey`. -/
abbrev BlockKey := String

/-- The function `BlockAndIdToKey`. -/
def BlockAndIdToKey (block id : Int) : UpkeepKey :=
  bigString block ++ separator ++ bigString id

/-- The function `BlockAndIdFromKey`. -/
def BlockAndIdFromKey (key : UpkeepKey) : Except GoError (BlockKey × Int) :=
  match stringsSplit key with
  | [p0, p1] =>
    match SetString p1 with
    | none =>
      .error (.wrap (.sentinel .ErrUpkeepKeyNotParsable)
        (Sentinel.ErrUpkeepKeyNotParsable.text ++ ": must be big int"))
    | some id => .ok (p0, id)
  | _ =>
    .error (.wrap (.sentinel .ErrUpkeepKeyNotParsable)
      (Sentinel.ErrUpkeepKeyNotParsable.text ++ ": missing data in upkeep key"))


/-! ## The registry client: collaborators -/

/-- Modelled from the spec: the declaration of `types.UpkeepState` is not among the
sources read here.  The spec gives the eligibility state the two values
`{Eligible, NotEligible}`; the zero value of the type (the state of an `UpkeepResult`
that was never filled in) is `NotEligible`, the first of the two in declaration
order. -/
inductive UpkeepState
  | NotEligible
  | Eligible
  deriving DecidableEq, Repr

/-- The type `types.UpkeepResult`, with the fields `SimulatedContract.CheckUpkeep`
fills in.  Pointers to big integers are `Option Int` (`none` is `nil`). -/
structure UpkeepResult where
  Key : UpkeepKey
  State : UpkeepState
  GasUsed : Option Int
  PerformData : List Nat
  FastGasWei : Option Int
  LinkNative : Option Int
  CheckBlockNumber : Nat
  CheckBlockHash : Nat
  deriving DecidableEq, Repr

/-- The zero value `types.UpkeepResult{}`, as left in a slot made by `make`. -/
def UpkeepResult.zero : UpkeepResult :=
  { Key := "", State := .NotEligible, GasUsed := none, PerformData := [],
    FastGasWei := none, LinkNative := none, CheckBlockNumber := 0, CheckBlockHash := 0 }

/-- The type `bind.CallOpts`, reduced to the block number. -/
structure CallOpts where
  BlockNumber : Int
  deriving DecidableEq, Repr

/-- An `rpc.BatchElem` as `check` builds it: an `eth_call` with a payload and a block
number, and a result slot.  The zero value of `rpc.BatchElem` (no method, no result
slot) is `none : Option BatchElem`. -/
structure BatchElem where
  data : List Nat
  block : Int
  deriving DecidableEq, Repr

/-- What a batched call leaves in one element: `Error` set, or `Error` nil and the
text written to the result slot.  An element the client did not touch has `Error` nil
and the empty text. -/
inductive BatchResp
  | error (e : GoError)
  | result (s : String)
  deriving DecidableEq, Repr

/-- The response at position `i`; an element without a response is untouched. -/
def respAt (resps : List BatchResp) (i : Nat) : BatchResp :=
  resps.getD i (.result "")

/-- The interface `EVMClient`, as far as the registry client calls it.
`HeaderByNumber` is the call with a nil number (the latest header) and gives the
header's number; `BatchCallContext` gives the response of every element, or the
transport error it returns. -/
structure EVMClient where
  HeaderByNumber : Except GoError Int
  BatchCallContext : List (Option BatchElem) → Except GoError (List BatchResp)

/-- The generated binding `KeeperRegistryCaller`, as far as `GetActiveUpkeepKeys`
calls it: `GetState` gives `State.NumUpkeeps`, and `GetActiveUpkeepIDs opts start
count` gives one page of ids. -/
structure KeeperRegistryCaller where
  GetState : CallOpts → Except GoError Int
  GetActiveUpkeepIDs : CallOpts → Int → Int → Except GoError (List Int)

/-- The ABI packer `keeperRegistryABI.Pack` for the two methods `check` calls, and the
two response decoders of the package; none of them is among the sources read here,
so they are parameters. -/
structure Codec where
  packCheckUpkeep : Int → Except GoError (List Nat)
  packSimulatePerformUpkeep : Int → List Nat → Except GoError (List Nat)
  unmarshalCheckUpkeepResult : UpkeepKey → String → Except GoError UpkeepResult
  unmarshalPerformUpkeepSimulationResult : String → Except GoError Bool

/-- The type `evmRegistryv2_0`, together with the package-level codec it uses. -/
structure evmRegistryv2_0 where
  registry : KeeperRegistryCaller
  client : EVMClient
  abi : Codec

/-- The constant `ActiveUpkeepIDBatchSize`. -/
def ActiveUpkeepIDBatchSize : Int := 10000

/-! ## The registry client: `buildCallOpts` and `GetActiveUpkeepKeys` -/

/-- The method `buildCallOpts`. -/
def buildCallOpts (r : evmRegistryv2_0) (block : BlockKey) : Except GoError CallOpts :=
  match SetString block with
  | none =>
    .error (.wrap (.sentinel .ErrBlockKeyNotParsable)
      (Sentinel.ErrBlockKeyNotParsable.text ++ ": requires big int"))
  | some b =>
    if bigInt64 b = 0 then
      match r.client.HeaderByNumber with
      | .error err =>
        .error (.wrap err (err.Error ++ ": " ++ Sentinel.ErrRegistryCallFailure.text ++
          ": EVM failed to fetch block header"))
      | .ok number => .ok { BlockNumber := number }
    else .ok { BlockNumber := b }

/-- The builtin `copy(dst, src)`: the new content of `dst`, whose first
`min (len dst) (len src)` elements are overwritten with those of `src`. -/
def copy {α : Type} (dst src : List α) : List α :=
  src.take dst.length ++ dst.drop src.length

/-- The paging loop of `GetActiveUpkeepKeys` (`for int64(len(keys)) < NumUpkeeps`),
with `numUpkeeps` the value `state.State.NumUpkeeps.Int64()` and `batchSize` the page
size.  Every turn of the loop uses one unit of fuel; `none` means the fuel ran out
before the loop ended. -/
def pageLoop (r : evmRegistryv2_0) (opts : CallOpts) (numUpkeeps batchSize : Int) :
    Nat → List UpkeepKey → Option (Except GoError (List UpkeepKey))
  | fuel, keys =>
    if (keys.length : Int) < numUpkeeps then
      match fuel with
      | 0 => none
      | fuel + 1 =>
        let startIndex : Int := keys.length
        let maxCount : Int :=
          if numUpkeeps - keys.length > batchSize then batchSize
          else numUpkeeps - keys.length
        match r.registry.GetActiveUpkeepIDs opts startIndex maxCount with
        | .error err =>
          some (.error (.wrap err ("failed to get active upkeep IDs from index " ++
            bigString startIndex ++ " to " ++ bigString (startIndex + maxCount - 1) ++
            " (both inclusive): " ++ err.Error)))
        | .ok nextRawKeys =>
          let nextKeys := nextRawKeys.map (BlockAndIdToKey opts.BlockNumber)
          if nextKeys.length = 0 then some (.ok keys)
          else
            -- buffer := make([]types.UpkeepKey, len(keys), len(keys)+len(nextKeys))
            let buffer : List UpkeepKey := List.replicate keys.length ""
            -- copy(keys, buffer): the destination is `keys`, the source is `buffer`
            let _keys : List UpkeepKey := copy keys buffer
            -- keys = append(buffer, nextKeys...)
            pageLoop r opts numUpkeeps batchSize fuel (buffer ++ nextKeys)
    else some (.ok keys)

/-- The method `GetActiveUpkeepKeys`, for a page size `batchSize`.  The loop is given
as many units of fuel as the registry reports upkeeps. -/
def GetActiveUpkeepKeysWith (batchSize : Int) (r : evmRegistryv2_0) (block : BlockKey) :
    Option (Except GoError (List UpkeepKey)) :=
  match buildCallOpts r block with
  | .error err => some (.error err)
  | .ok opts =>
    match r.registry.GetState opts with
    | .error err =>
      some (.error (.wrap err ("failed to get contract state at block number " ++
        bigString (bigInt64 opts.BlockNumber) ++ ": " ++ err.Error)))
    | .ok numUpkeeps =>
      pageLoop r opts (bigInt64 numUpkeeps) batchSize (bigInt64 numUpkeeps).toNat []

/-- The method `GetActiveUpkeepKeys`, with the page size of the source. -/
def GetActiveUpkeepKeys (r : evmRegistryv2_0) (block : BlockKey) :
    Option (Except GoError (List UpkeepKey)) :=
  GetActiveUpkeepKeysWith ActiveUpkeepIDBatchSize r block

/-- A registry that holds the upkeep ids `ids`, reports `ids.length` upkeeps and
answers the page request `(start, count)` with `ids[start .. start+count)`; the latest
header is at block `latest`. -/
def pagedRegistry (latest : Int) (ids : List Int) : evmRegistryv2_0 :=
  { registry :=
      { GetState := fun _ => .ok ids.length
        GetActiveUpkeepIDs := fun _ start count =>
          .ok ((ids.drop start.toNat).take count.toNat) }
    client :=
      { HeaderByNumber := .ok latest
        BatchCallContext := fun _ => .ok [] }
    abi :=
      { packCheckUpkeep := fun _ => .ok []
        packSimulatePerformUpkeep := fun _ _ => .ok []
        unmarshalCheckUpkeepResult := fun _ _ => .ok UpkeepResult.zero
        unmarshalPerformUpkeepSimulationResult := fun _ => .ok true } }

/-! ## The registry client: the two-phase check -/

/-- How the worker `check` ends: it sends results on the channel, it sends an error
on the channel, or it panics on a nil pointer before sending anything. -/
inductive Outcome (α : Type)
  | ok (a : α)
  | err (e : GoError)
  | panic
  deriving DecidableEq, Repr

/-- The first loop of `check`: one `eth_call` request per key.  The first key that
does not parse, whose call options cannot be built, or whose payload cannot be packed
ends the worker with that error. -/
def buildCheckReqs (r : evmRegistryv2_0) : List UpkeepKey → Except GoError (List BatchElem)
  | [] => .ok []
  | key :: keys =>
    match BlockAndIdFromKey key with
    | .error err => .error err
    | .ok (block, upkeepId) =>
      match buildCallOpts r block with
      | .error err => .error err
      | .ok opts =>
        match r.abi.packCheckUpkeep upkeepId with
        | .error err => .error err
        | .ok payload =>
          match buildCheckReqs r keys with
          | .error err => .error err
          | .ok reqs => .ok ({ data := payload, block := opts.BlockNumber } :: reqs)

/-- The `else` branch of the check-phase loop for one key whose check response has no
error and carries the text `s`: decode the result, then build the simulate-perform
request from its perform data.  An error here ends the worker. -/
def buildPerformReq (r : evmRegistryv2_0) (key : UpkeepKey) (s : String) :
    Except GoError (UpkeepResult × BatchElem) :=
  match r.abi.unmarshalCheckUpkeepResult key s with
  | .error err => .error err
  | .ok result =>
    match BlockAndIdFromKey key with
    | .error err => .error err
    | .ok (block, upkeepId) =>
      match buildCallOpts r block with
      | .error err => .error err
      | .ok opts =>
        match r.abi.packSimulatePerformUpkeep upkeepId result.PerformData with
        | .error err => .error err
        | .ok payload => .ok (result, { data := payload, block := opts.BlockNumber })

/-- The check-phase loop (`for i, req := range checkReqs`), over the keys that are
left and the responses at their positions, with `err` the current value of the
function-level variable `err`.  It gives the final `err`, `performReqs` and `results`.

* A response with an error containing "reverted" is skipped; any other error is
  appended to `err`.  Either way the position keeps a zero `performReqs` element, a
  nil `performResults` slot and a zero result.
* For a response without error, `results[i], err = unmarshalCheckUpkeepResult(...)`
  assigns the function-level `err`; the loop goes on only when the value assigned is
  nil.  The later `:=` declarations of the branch are local to it. -/
def checkLoop (r : evmRegistryv2_0) : List UpkeepKey → List BatchResp → Option GoError →
    Except GoError (Option GoError × List (Option BatchElem) × List UpkeepResult)
  | [], _, err => .ok (err, [], [])
  | key :: keys, resps, err =>
    match respAt resps 0 with
    | .error e =>
      let err1 : Option GoError :=
        if stringsContains e.Error "reverted" then err else multierrAppendInto err e
      match checkLoop r keys resps.tail err1 with
      | .error x => .error x
      | .ok (errOut, reqs, results) => .ok (errOut, none :: reqs, UpkeepResult.zero :: results)
    | .result s =>
      match buildPerformReq r key s with
      | .error x => .error x
      | .ok (result, req) =>
        match checkLoop r keys resps.tail none with
        | .error x => .error x
        | .ok (errOut, reqs, results) => .ok (errOut, some req :: reqs, result :: results)

/-- The end of the `else` branch of the perform-phase loop, for the check result
`result` of the position: `if !simulatePerformSuccess { results[i].State =
types.NotEligible }`, and the value then stored in `out.ur[i]`. -/
def applySimulation (simulatePerformSuccess : Bool) (result : UpkeepResult) : UpkeepResult :=
  if !simulatePerformSuccess then { result with State := .NotEligible } else result

/-- The perform-phase loop (`for i, req := range performReqs`), over the requests that
are left, the results and the responses at their positions, with `err` the current
value of the function-level variable `err`.  It gives the final `err` and `out.ur`.

A response without error is read through `*performResults[i]`; at a position for
which the check-phase loop built no request that slot is nil and the worker panics. -/
def performLoop (r : evmRegistryv2_0) : List (Option BatchElem) → List UpkeepResult →
    List BatchResp → Option GoError → Outcome (Option GoError × List UpkeepResult)
  | [], _, _, err => .ok (err, [])
  | req :: reqs, results, resps, err =>
    match respAt resps 0 with
    | .error e =>
      let err1 : Option GoError :=
        if stringsContains e.Error "reverted" then err else multierrAppendInto err e
      match performLoop r reqs results.tail resps.tail err1 with
      | .ok (errOut, ur) => .ok (errOut, UpkeepResult.zero :: ur)
      | .err x => .err x
      | .panic => .panic
    | .result s =>
      match req with
      | none => .panic
      | some _ =>
        match r.abi.unmarshalPerformUpkeepSimulationResult s with
        | .error x => .err x
        | .ok simulatePerformSuccess =>
          match performLoop r reqs results.tail resps.tail err with
          | .ok (errOut, ur) =>
            .ok (errOut,
              applySimulation simulatePerformSuccess (results.headD UpkeepResult.zero) :: ur)
          | .err x => .err x
          | .panic => .panic

/-- The tail of `check` from the second batched call on. -/
def checkPerformPhase (r : evmRegistryv2_0) (performReqs : List (Option BatchElem))
    (results : List UpkeepResult) : Outcome (List UpkeepResult) :=
  match r.client.BatchCallContext performReqs with
  | .error err =>
    .err (.wrap (.sentinel .ErrRegistryCallFailure)
      (Sentinel.ErrRegistryCallFailure.text ++ ": simulate perform upkeep returned result: " ++
        err.Error))
  | .ok performResps =>
    match performLoop r performReqs results performResps none with
    | .panic => .panic
    | .err x => .err x
    | .ok (some e, _) => .err e
    | .ok (none, ur) => .ok ur

/-- The worker `check`: what it sends on the channel. -/
def check (r : evmRegistryv2_0) (keys : List UpkeepKey) : Outcome (List UpkeepResult) :=
  match buildCheckReqs r keys with
  | .error err => .err err
  | .ok checkReqs =>
    match r.client.BatchCallContext (checkReqs.map some) with
    | .error err => .err err
    | .ok checkResps =>
      match checkLoop r keys checkResps none with
      | .error x => .err x
      | .ok (some e, _, _) => .err e
      | .ok (none, performReqs, results) => checkPerformPhase r performReqs results

/-- The responses of the first (check) batched round trip, when `check` gets them. -/
def checkResponses (r : evmRegistryv2_0) (keys : List UpkeepKey) : Option (List BatchResp) :=
  match buildCheckReqs r keys with
  | .error _ => none
  | .ok checkReqs =>
    match r.client.BatchCallContext (checkReqs.map some) with
    | .error _ => none
    | .ok checkResps => some checkResps

/-- The responses of the second (simulate perform) batched round trip, when `check`
gets them. -/
def performResponses (r : evmRegistryv2_0) (keys : List UpkeepKey) : Option (List BatchResp) :=
  match checkResponses r keys with
  | none => none
  | some checkResps =>
    match checkLoop r keys checkResps none with
    | .ok (none, performReqs, _) =>
      match r.client.BatchCallContext performReqs with
      | .error _ => none
      | .ok performResps => some performResps
    | _ => none

/-- Which cases of the `select` statement of `CheckUpkeep` are ready when it fires:
only the result channel, only `ctx.Done()`, or both, in which case the runtime picks
one of them (`pickResult` tells which). -/
inductive SelectReady
  | resultOnly
  | doneOnly
  | both (pickResult : Bool)
  deriving DecidableEq, Repr

/-- Whether the `select` statement takes the case `rs := <-chResult`. -/
def SelectReady.takesResult : SelectReady → Bool
  | .resultOnly => true
  | .doneOnly => false
  | .both pickResult => pickResult

/-- The method `CheckUpkeep`: the pair `(results, error)` it returns, for a given
state of the `select` statement.  `none` stands for no return at all: the case taken
waits for the worker, and the worker panicked. -/
def CheckUpkeep (r : evmRegistryv2_0) (keys : List UpkeepKey) (sel : SelectReady) :
    Option (Option (List UpkeepResult) × Option GoError) :=
  if sel.takesResult then
    match check r keys with
    | .ok ur => some (some ur, none)
    | .err e => some (none, some e)
    | .panic => none
  else
    some (none, some (.wrap (.sentinel .ErrContextCancelled)
      (Sentinel.ErrContextCancelled.text ++ ": failed to check upkeep on registry")))

/-! ## A scripted registry for concrete runs -/

/-- A codec for concrete runs.  A check payload is `[0, id]`, a simulate-perform
payload is `[1, id]` followed by the perform data.  The check decoder stamps the key
on the result and reads the text "eligible" as `Eligible`; it fails on "garbage".
The perform decoder reads "true" and "false" and fails on anything else. -/
def scriptedCodec : Codec :=
  { packCheckUpkeep := fun id => .ok [0, id.toNat]
    packSimulatePerformUpkeep := fun id performData => .ok (1 :: id.toNat :: performData)
    unmarshalCheckUpkeepResult := fun key s =>
      if s = "garbage" then .error (.plain "abi: cannot unmarshal")
      else .ok { UpkeepResult.zero with
                  Key := key
                  State := if s = "eligible" then .Eligible else .NotEligible }
    unmarshalPerformUpkeepSimulationResult := fun s =>
      if s = "true" then .ok true
      else if s = "false" then .ok false
      else .error (.plain "abi: cannot unmarshal") }

/-- Whether a batch is a check batch of `scriptedCodec`: every element is a request
whose payload starts with `0`. -/
def isCheckBatch (reqs : List (Option BatchElem)) : Bool :=
  reqs.all fun req =>
    match req with
    | some e => decide (e.data.head? = some 0)
    | none => false

/-- A registry client for concrete runs: it answers the check batch with the responses
`first` and the simulate-perform batch with the responses `second`. -/
def scriptedRegistry (first second : List BatchResp) : evmRegistryv2_0 :=
  { registry :=
      { GetState := fun _ => .ok 0
        GetActiveUpkeepIDs := fun _ _ _ => .ok [] }
    client :=
      { HeaderByNumber := .ok 1
        BatchCallContext := fun reqs => if isCheckBatch reqs then .ok first else .ok second }
    abi := scriptedCodec }

/-! ## The simulated database -/

/-- The type `types.ConfigDigest` (32 bytes), as the number the bytes spell. -/
abbrev ConfigDigest := Nat

/-- The type `types.ReportTimestamp`. -/
structure ReportTimestamp where
  ConfigDigest : Nat
  Epoch : Nat
  Round : Nat
  deriving DecidableEq, Repr

/-- The type `types.PendingTransmission`; `Time` is an instant on the time line. -/
structure PendingTransmission where
  Time : Int
  ExtraHash : Nat
  Report : List Nat
  AttributedSignatures : List (List Nat × Nat)
  deriving DecidableEq, Repr

/-- The type `types.PersistentState`. -/
structure PersistentState where
  Epoch : Nat
  HighestSentEpoch : Nat
  HighestReceivedEpoch : List Nat
  deriving DecidableEq, Repr

/-- The type `types.ContractConfig`. -/
structure ContractConfig where
  ConfigDigest : Nat
  ConfigCount : Nat
  Signers : List (List Nat)
  Transmitters : List String
  F : Nat
  OnchainConfig : List Nat
  OffchainConfigVersion : Nat
  OffchainConfig : List Nat
  deriving DecidableEq, Repr

/-- A Go map: a finite list of entries with pairwise different keys. -/
abbrev GoMap (κ : Type) (ν : Type) := AList (fun _ : κ => ν)

/-- The type `SimulatedDatabase` (without its lock); `config = none` is the nil
pointer. -/
structure SimulatedDatabase where
  states : GoMap ConfigDigest PersistentState
  transmitDigestLookup : GoMap ConfigDigest (List ReportTimestamp)
  pendingTransmit : GoMap ReportTimestamp PendingTransmission
  config : Option ContractConfig

/-- The constructor `NewSimulatedDatabase`. -/
def NewSimulatedDatabase : SimulatedDatabase :=
  { states := ∅, transmitDigestLookup := ∅, pendingTransmit := ∅, config := none }

namespace SimulatedDatabase

/-- The method `ReadState`. -/
def ReadState (d : SimulatedDatabase) (configDigest : ConfigDigest) :
    Except GoError PersistentState :=
  match d.states.lookup configDigest with
  | some val => .ok val
  | none => .error (.plain "not found")

/-- The method `WriteState`: the store afterwards and the error returned. -/
def WriteState (d : SimulatedDatabase) (configDigest : ConfigDigest) (state : PersistentState) :
    SimulatedDatabase × Option GoError :=
  ({ d with states := d.states.insert configDigest state }, none)

/-- The method `ReadConfig`. -/
def ReadConfig (d : SimulatedDatabase) : Except GoError ContractConfig :=
  match d.config with
  | none => .error (.plain "not found")
  | some config => .ok config

/-- The method `WriteConfig`: the store afterwards and the error returned. -/
def WriteConfig (d : SimulatedDatabase) (config : ContractConfig) :
    SimulatedDatabase × Option GoError :=
  ({ d with config := some config }, none)

/-- The method `StorePendingTransmission`: the store afterwards and the error
returned. -/
def StorePendingTransmission (d : SimulatedDatabase) (ts : ReportTimestamp)
    (tr : PendingTransmission) : SimulatedDatabase × Option GoError :=
  ({ d with pendingTransmit := d.pendingTransmit.insert ts tr }, none)

/-- The method `PendingTransmissionsWithConfigDigest`: the map and the error
returned. -/
def PendingTransmissionsWithConfigDigest (d : SimulatedDatabase) (digest : ConfigDigest) :
    GoMap ReportTimestamp PendingTransmission × Option GoError :=
  let result : GoMap ReportTimestamp PendingTransmission :=
    match d.transmitDigestLookup.lookup digest with
    | some keys =>
      keys.foldl
        (fun result key =>
          match d.pendingTransmit.lookup key with
          | some value => result.insert key value
          | none => result)
        ∅
    | none => ∅
  (result, none)

/-- The method `DeletePendingTransmission`: the store afterwards and the error
returned. -/
def DeletePendingTransmission (d : SimulatedDatabase) (ts : ReportTimestamp) :
    SimulatedDatabase × Option GoError :=
  ({ d with pendingTransmit := d.pendingTransmit.erase ts }, none)

/-- The method `DeletePendingTransmissionsOlderThan`: the store afterwards and the
error returned.  The first loop collects the keys whose record has `Time` before
`tm`, the second deletes them. -/
def DeletePendingTransmissionsOlderThan (d : SimulatedDatabase) (tm : Int) :
    SimulatedDatabase × Option GoError :=
  let toDelete : List ReportTimestamp :=
    (d.pendingTransmit.entries.filter (fun kv => decide (kv.2.Time < tm))).map (fun kv => kv.1)
  ({ d with pendingTransmit := toDelete.foldl (fun m key => m.erase key) d.pendingTransmit },
    none)

end SimulatedDatabase

/-- One call of a method of the store that can change it. -/
inductive StoreCall
  | WriteState (configDigest : ConfigDigest) (state : PersistentState)
  | WriteConfig (config : ContractConfig)
  | StorePendingTransmission (ts : ReportTimestamp) (tr : PendingTransmission)
  | DeletePendingTransmission (ts : ReportTimestamp)
  | DeletePendingTransmissionsOlderThan (tm : Int)
  deriving DecidableEq, Repr

/-- Whether a call is a call of `WriteConfig`. -/
def StoreCall.isWriteConfig : StoreCall → Bool
  | .WriteConfig _ => true
  | _ => false

/-- The store after one call. -/
def StoreCall.apply (d : SimulatedDatabase) : StoreCall → SimulatedDatabase
  | .WriteState configDigest state => (d.WriteState configDigest state).1
  | .WriteConfig config => (d.WriteConfig config).1
  | .StorePendingTransmission ts tr => (d.StorePendingTransmission ts tr).1
  | .DeletePendingTransmission ts => (d.DeletePendingTransmission ts).1
  | .DeletePendingTransmissionsOlderThan tm => (d.DeletePendingTransmissionsOlderThan tm).1

/-- The store after a sequence of calls, first call first. -/
def runCalls (d : SimulatedDatabase) (calls : List StoreCall) : SimulatedDatabase :=
  calls.foldl StoreCall.apply d

/-! ## The registry client: identifiers, page requests, transport failures -/

/-- The bytes of a natural number, most significant byte first, pushed in front of
`acc`; the fuel bounds the number of bytes. -/
def bytesOfNat : Nat → Nat → List Nat → List Nat
  | 0, _, acc => acc
  | fuel + 1, n, acc => if n = 0 then acc else bytesOfNat fuel (n / 256) (n % 256 :: acc)

/-- The method `Bytes()` of `*big.Int`: the big-endian bytes of the absolute value,
without leading zero bytes (no byte at all for zero). -/
def bigBytes (x : Int) : List Nat :=
  bytesOfNat x.natAbs x.natAbs []

/-- The number that a big-endian byte sequence spells. -/
def bytesValue (bs : List Nat) : Nat :=
  bs.foldl (fun acc b => 256 * acc + b) 0

/-- The method `IdentifierFromKey`. -/
def IdentifierFromKey (key : UpkeepKey) : Except GoError (List Nat) :=
  match BlockAndIdFromKey key with
  | .error err => .error err
  | .ok (_, id) => .ok (bigBytes id)

/-- The paging loop of `GetActiveUpkeepKeys` once more, as `pageLoop`, giving next to
the result the number of calls of `GetActiveUpkeepIDs` that were made. -/
def pageLoopCount (r : evmRegistryv2_0) (opts : CallOpts) (numUpkeeps batchSize : Int) :
    Nat → List UpkeepKey → Option (Except GoError (List UpkeepKey) × Nat)
  | fuel, keys =>
    if (keys.length : Int) < numUpkeeps then
      match fuel with
      | 0 => none
      | fuel + 1 =>
        let startIndex : Int := keys.length
        let maxCount : Int :=
          if numUpkeeps - keys.length > batchSize then batchSize
          else numUpkeeps - keys.length
        match r.registry.GetActiveUpkeepIDs opts startIndex maxCount with
        | .error err =>
          some (.error (.wrap err ("failed to get active upkeep IDs from index " ++
            bigString startIndex ++ " to " ++ bigString (startIndex + maxCount - 1) ++
            " (both inclusive): " ++ err.Error)), 1)
        | .ok nextRawKeys =>
          let nextKeys := nextRawKeys.map (BlockAndIdToKey opts.BlockNumber)
          if nextKeys.length = 0 then some (.ok keys, 1)
          else
            let buffer : List UpkeepKey := List.replicate keys.length ""
            match pageLoopCount r opts numUpkeeps batchSize fuel (buffer ++ nextKeys) with
            | none => none
            | some (res, n) => some (res, n + 1)
    else some (.ok keys, 0)

/-- A registry whose pages are all `page`, whatever is asked, and that reports
`numUpkeeps` upkeeps. -/
def fixedPageRegistry (numUpkeeps : Int) (page : List Int) : evmRegistryv2_0 :=
  { registry :=
      { GetState := fun _ => .ok numUpkeeps
        GetActiveUpkeepIDs := fun _ _ _ => .ok page }
    client :=
      { HeaderByNumber := .ok 1
        BatchCallContext := fun _ => .ok [] }
    abi := scriptedCodec }

/-- A registry client for concrete runs whose transport can fail: `header` is the
outcome of the header fetch, `first` that of the check batch and `second` that of the
simulate-perform batch. -/
def transportRegistry (header : Except GoError Int)
    (first second : Except GoError (List BatchResp)) : evmRegistryv2_0 :=
  { registry :=
      { GetState := fun _ => .ok 0
        GetActiveUpkeepIDs := fun _ _ _ => .ok [] }
    client :=
      { HeaderByNumber := header
        BatchCallContext := fun reqs => if isCheckBatch reqs then first else second }
    abi := scriptedCodec }

/-- The error `CheckUpkeep` returns when it takes the case `<-ctx.Done()`. -/
def cancelledError : GoError :=
  .wrap (.sentinel .ErrContextCancelled)
    (Sentinel.ErrContextCancelled.text ++ ": failed to check upkeep on registry")

/-! ## The reporting plugin factory -/

/-- The type `types.ReportingPluginLimits`. -/
structure ReportingPluginLimits where
  MaxQueryLength : Int
  MaxObservationLength : Int
  MaxReportLength : Int
  deriving DecidableEq, Repr

/-- The type `types.ReportingPluginInfo`. -/
structure ReportingPluginInfo where
  Name : String
  UniqueReports : Bool
  Limits : ReportingPluginLimits
  deriving DecidableEq, Repr

/-- The type `types.ReportingPluginConfig`, with the fields the factory reads and the
two configuration blobs. -/
structure ReportingPluginConfig where
  ConfigDigest : Nat
  OracleID : Nat
  N : Int
  F : Int
  OnchainConfig : List Nat
  OffchainConfig : List Nat
  deriving DecidableEq, Repr

/-- The type `ReportingFactoryConfig`; durations are in nanoseconds. -/
structure ReportingFactoryConfig where
  CacheExpiration : Int
  CacheEvictionInterval : Int
  MaxServiceWorkers : Int
  ServiceQueueLength : Int
  deriving DecidableEq, Repr

/-- The upkeep service as `newSimpleUpkeepService` is asked to build it: the sample
ratio and the four numbers of the factory config. -/
structure UpkeepService where
  sample : Rat
  CacheExpiration : Int
  CacheEvictionInterval : Int
  MaxServiceWorkers : Int
  ServiceQueueLength : Int
  deriving DecidableEq, Repr

/-- The type `keepersReportingFactory`: its config, and the function
`sampleFromProbability` of the package, which is not among the sources read here and
is a parameter (rounds, nodes and target probability to a sample ratio or an error).
The registry, the encoder and the logger are handed on untouched and left out. -/
structure keepersReportingFactory where
  config : ReportingFactoryConfig
  sampleFromProbability : Int → Int → Rat → Except GoError Rat

/-- The text of a config digest under the verb `%s`: its 32 bytes as 64 lower-case
hexadecimal digits. -/
def digestHex (d : Nat) : String :=
  let digits := Nat.toDigits 16 (d % 2 ^ 256)
  String.mk (List.replicate (64 - digits.length) '0' ++ digits)

/-- The method `NewReportingPlugin`: the plugin (`none` is nil), the plugin info and
the error. -/
def NewReportingPlugin (d : keepersReportingFactory) (c : ReportingPluginConfig) :
    Option UpkeepService × ReportingPluginInfo × Option GoError :=
  let info : ReportingPluginInfo :=
    { Name := "Oracle " ++ Nat.repr c.OracleID ++ ": Keepers Plugin Instance w/ Digest '" ++
        digestHex c.ConfigDigest ++ "'"
      Limits :=
        { MaxQueryLength := 0
          MaxObservationLength := 1000
          MaxReportLength := 10000 }
      UniqueReports := true }
  match d.sampleFromProbability 1 (c.N - c.F) (99999 / 100000) with
  | .error err => (none, info, some (.wrap err (err.Error ++ ": failed to create plugin")))
  | .ok sample =>
    (some
      { sample := sample
        CacheExpiration := d.config.CacheExpiration
        CacheEvictionInterval := d.config.CacheEvictionInterval
        MaxServiceWorkers := d.config.MaxServiceWorkers
        ServiceQueueLength := d.config.ServiceQueueLength },
      info, none)

/-! ## The simulated registry -/

/-- The type `types.PerformLog`.  Its declaration is not among the sources read here;
`SimulatedContract.CheckUpkeep` only asks whether a log is recorded under a block, so
the fields are of no consequence. -/
structure PerformLog where
  Key : UpkeepKey
  TransmitBlock : BlockKey
  Confirmations : Int
  deriving DecidableEq, Repr

/-- The type `SimulatedUpkeep`; `Performs` maps the decimal text of a block number to
the perform log recorded at that block. -/
structure SimulatedUpkeep where
  ID : Int
  EligibleAt : List Int
  Performs : GoMap String PerformLog

/-- The type `SimulatedContract`, with the two fields `CheckUpkeep` reads: the average
latency and the registered upkeeps by the text of their id (the logger, the telemetry
and the last block are left out). -/
structure SimulatedContract where
  avgLatency : Int
  upkeeps : GoMap String SimulatedUpkeep

/-- How a call ends: it returns, it panics, or the fuel given to its loops ran out
before it returned. -/
inductive CallResult (α : Type)
  | returned (a : α)
  | panicked (msg : String)
  | outOfFuel
  deriving DecidableEq, Repr

/-- The value of a 64-bit signed integer expression whose exact value is `x`. -/
def wrapInt64 (x : Int) : Int :=
  let u : Int := x % 2 ^ 64
  if u < 2 ^ 63 then u else u - 2 ^ 64

/-- The inner loop of `SimulatedContract.CheckUpkeep`, `for i = 0; i <= diff; i++`,
from the value `i` of the counter on: `some true` when a perform log is found under
the block `e + i` for a counter value reached, `some false` when the loop ends without
one, `none` when the fuel runs out. -/
def performScan (performs : GoMap String PerformLog) (e diff : Int) : Nat → Int → Option Bool
  | 0, _ => none
  | fuel + 1, i =>
    if i ≤ diff then
      if (performs.lookup (bigString (e + i))).isSome then some true
      else performScan performs e diff fuel (wrapInt64 (i + 1))
    else some false

/-- The outer loop of `SimulatedContract.CheckUpkeep`,
`for j := len(up.EligibleAt) - 1; j >= 0; j--`, over the eligibility points in the
order the loop visits them (last index first): the boolean returned and the final
state, `none` when the fuel of an inner loop runs out. -/
def eligibleScan (block : Int) (performs : GoMap String PerformLog) (fuel : Nat) :
    List Int → Option (Bool × UpkeepState)
  | [] => some (false, .NotEligible)
  | e :: rest =>
    if block ≥ e then
      match performScan performs e (bigInt64 (block - e)) fuel 0 with
      | none => none
      | some true => some (false, .NotEligible)
      | some false => some (true, .Eligible)
    else eligibleScan block performs fuel rest

/-- Which case the `select` statement of the latency wait takes. -/
inductive LatencyWait
  | timerFired
  | contextDone
  deriving DecidableEq, Repr

/-- The method `SimulatedContract.CheckUpkeep`: the triple it returns.  `rand.Intn`
panics on an average latency that is not positive; `fuel` bounds the turns of each
inner loop. -/
def SimulatedContract.CheckUpkeep (ct : SimulatedContract) (wait : LatencyWait) (fuel : Nat)
    (key : UpkeepKey) : CallResult (Bool × UpkeepResult × Option GoError) :=
  if ct.avgLatency ≤ 0 then .panicked "invalid argument to Intn"
  else
    match wait with
    | .contextDone => .returned (false, UpkeepResult.zero, some (.plain "context cancelled"))
    | .timerFired =>
      match stringsSplit key with
      | [p0, p1] =>
        match SetString p0 with
        | none =>
          .returned (false, UpkeepResult.zero,
            some (.plain "block in key not parsable as big int"))
        | some block =>
          match ct.upkeeps.lookup p1 with
          | none => .returned (false, UpkeepResult.zero, some (.plain "upkeep not registered"))
          | some up =>
            let r : UpkeepResult :=
              { Key := key
                State := .NotEligible
                GasUsed := some 0
                PerformData := []
                FastGasWei := some 0
                LinkNative := some 0
                CheckBlockNumber := ((bigInt64 block - 1) % 2 ^ 32).toNat
                CheckBlockHash := 0 }
            match eligibleScan block up.Performs fuel up.EligibleAt.reverse with
            | none => .outOfFuel
            | some (ok, state) => .returned (ok, { r with State := state }, none)
      | _ => .panicked "upkeep key does not contain block and id"

/-- The eligibility of an upkeep at a block in the words of the claim: there is an
index `j` with `block ≥ EligibleAt[j]`, and for the greatest such `j` no perform log is
recorded at any block of the closed range from `EligibleAt[j]` to `block`. -/
def EligibleBySpec (up : SimulatedUpkeep) (block : Int) : Prop :=
  ∃ (j : Nat) (e : Int), up.EligibleAt[j]? = some e ∧ e ≤ block ∧
    (∀ (j1 : Nat) (e1 : Int), j < j1 → up.EligibleAt[j1]? = some e1 → ¬ e1 ≤ block) ∧
    ∀ c : Int, e ≤ c → c ≤ block → up.Performs.lookup (bigString c) = none

/-- An upkeep for concrete runs, with the id 7, eligible at the blocks `eligibleAt` and
with a perform log at each block of `performedAt`. -/
def simulatedUpkeepOf (eligibleAt performedAt : List Int) : SimulatedUpkeep :=
  { ID := 7
    EligibleAt := eligibleAt
    Performs :=
      performedAt.foldl
        (fun m b =>
          m.insert (bigString b)
            { Key := BlockAndIdToKey b 7, TransmitBlock := bigString b, Confirmations := 0 })
        ∅ }

/-- A simulated contract for concrete runs, with the upkeep
`simulatedUpkeepOf eligibleAt performedAt` registered under the id text "7". -/
def simulatedContractOf (eligibleAt performedAt : List Int) : SimulatedContract :=
  { avgLatency := 10
    upkeeps :=
      (∅ : GoMap String SimulatedUpkeep).insert "7" (simulatedUpkeepOf eligibleAt performedAt) }

/-! ## Decimal text: printing and reading back -/

theorem digitValue_digitChar (k : Nat) (hk : k < 10) :
    digitValue (Nat.digitChar k) = some k := by
  interval_cases k <;> decide

theorem digitChar_isDigit (k : Nat) (hk : k < 10) :
    '0' ≤ Nat.digitChar k ∧ Nat.digitChar k ≤ '9' := by
  interval_cases k <;> decide

theorem toDigitsCore_acc (fuel : Nat) : ∀ (n : Nat) (ds : List Char),
    Nat.toDigitsCore 10 fuel n ds = Nat.toDigitsCore 10 fuel n [] ++ ds := by
  induction fuel with
  | zero => intro n ds; simp [Nat.toDigitsCore]
  | succ f ih =>
    intro n ds
    simp only [Nat.toDigitsCore]
    by_cases h : n / 10 = 0
    · simp [h]
    · simp only [h, if_false]
      rw [ih (n / 10) (Nat.digitChar (n % 10) :: ds), ih (n / 10) [Nat.digitChar (n % 10)]]
      simp

theorem scanDigits_append (xs ys : List Char) : ∀ acc : Nat,
    scanDigits (xs ++ ys) acc = (scanDigits xs acc).bind (scanDigits ys) := by
  induction xs with
  | nil => intro acc; simp [scanDigits]
  | cons c cs ih =>
    intro acc
    simp only [List.cons_append, scanDigits]
    cases digitValue c with
    | none => simp
    | some d => simpa using ih (10 * acc + d)

theorem toDigitsCore_spec (fuel : Nat) : ∀ n : Nat, n < fuel →
    scanDigits (Nat.toDigitsCore 10 fuel n []) 0 = some n ∧
    Nat.toDigitsCore 10 fuel n [] ≠ [] ∧
    AllDigits (Nat.toDigitsCore 10 fuel n []) := by
  induction fuel with
  | zero => intro n hn; omega
  | succ f ih =>
    intro n hn
    have hd : n % 10 < 10 := Nat.mod_lt _ (by decide)
    simp only [Nat.toDigitsCore]
    by_cases h : n / 10 = 0
    · have hlt : n < 10 := by omega
      have hmod : n % 10 = n := Nat.mod_eq_of_lt hlt
      simp only [h, if_true]
      refine ⟨?_, by simp, ?_⟩
      · simp [scanDigits, hmod, digitValue_digitChar n hlt]
      · intro c hc
        simp only [List.mem_singleton] at hc
        subst hc
        exact digitChar_isDigit _ hd
    · simp only [h, if_false]
      have hlt : n / 10 < f := by omega
      obtain ⟨h1, h2, h3⟩ := ih (n / 10) hlt
      rw [toDigitsCore_acc f (n / 10) [Nat.digitChar (n % 10)]]
      refine ⟨?_, by simp, ?_⟩
      · rw [scanDigits_append, h1]
        simp only [Option.some_bind, scanDigits, digitValue_digitChar _ hd]
        congr 1
        omega
      · intro c hc
        rcases List.mem_append.mp hc with hc | hc
        · exact h3 c hc
        · simp only [List.mem_singleton] at hc
          subst hc
          exact digitChar_isDigit _ hd

/-- The decimal text of a natural number reads back as that number. -/
theorem repr_spec (n : Nat) :
    scanDigits (Nat.repr n).toList 0 = some n ∧ (Nat.repr n).toList ≠ [] ∧
    AllDigits (Nat.repr n).toList := by
  have h := toDigitsCore_spec (n + 1) n (Nat.lt_succ_self n)
  simpa [Nat.repr, Nat.toDigits, List.asString] using h

theorem scanMagnitude_repr (n : Nat) : scanMagnitude (Nat.repr n).toList = some n := by
  obtain ⟨h1, h2, _⟩ := repr_spec n
  cases hcs : (Nat.repr n).toList with
  | nil => exact absurd hcs h2
  | cons c cs => simp only [scanMagnitude]; rw [← hcs]; exact h1

theorem splitChars_of_not_mem (sep : Char) (a : List Char) (h : sep ∉ a) :
    splitChars sep a = [a] := by
  induction a with
  | nil => rfl
  | cons c cs ih =>
    have hc : c ≠ sep := fun e => h (by simp [e])
    have hcs : sep ∉ cs := fun e => h (by simp [e])
    simp [splitChars, hc, ih hcs]

theorem splitChars_append (sep : Char) (a b : List Char) (h : sep ∉ a) :
    splitChars sep (a ++ sep :: b) = a :: splitChars sep b := by
  induction a with
  | nil => simp [splitChars]
  | cons c cs ih =>
    have hc : c ≠ sep := fun e => h (by simp [e])
    have hcs : sep ∉ cs := fun e => h (by simp [e])
    simp [splitChars, hc, ih hcs]

theorem SetString_of_digits (s : String) (n : Nat)
    (h : scanMagnitude s.toList = some n) (hd : AllDigits s.toList) :
    SetString s = some (n : Int) := by
  unfold SetString
  split
  · next cs hcs =>
    have := hd '-' (by rw [hcs]; simp)
    exact absurd this.1 (by decide)
  · next cs hcs =>
    have := hd '+' (by rw [hcs]; simp)
    exact absurd this.1 (by decide)
  · have h' : scanMagnitude s.data = some n := h
    simp [h']

theorem bigString_toList_nonneg (x : Int) (hx : 0 ≤ x) :
    (bigString x).toList = (Nat.repr x.natAbs).toList := by
  have : ¬ x < 0 := by omega
  simp [bigString, this]

theorem bigString_toList_neg (x : Int) (hx : x < 0) :
    (bigString x).toList = '-' :: (Nat.repr x.natAbs).toList := by
  simp [bigString, hx]

/-- Reading the decimal text of an integer gives the integer back. -/
theorem SetString_bigString (x : Int) : SetString (bigString x) = some x := by
  obtain ⟨_, _, h3⟩ := repr_spec x.natAbs
  by_cases hx : x < 0
  · unfold SetString
    rw [bigString_toList_neg x hx]
    have hneg : -((x.natAbs : Nat) : Int) = x := by omega
    have hm : scanMagnitude (Nat.repr x.natAbs).data = some x.natAbs := scanMagnitude_repr _
    show Option.map (fun (n : Nat) => -(n : Int)) (scanMagnitude (Nat.repr x.natAbs).data) = some x
    rw [hm, Option.map_some', hneg]
  · have hx0 : 0 ≤ x := by omega
    have hs : SetString (bigString x) = some ((x.natAbs : Nat) : Int) := by
      apply SetString_of_digits
      · rw [bigString_toList_nonneg x hx0]; exact scanMagnitude_repr _
      · rw [bigString_toList_nonneg x hx0]; exact h3
    have hpos : ((x.natAbs : Nat) : Int) = x := by omega
    rw [hs, hpos]

/-- The decimal text of an integer does not contain the separator. -/
theorem separator_not_mem_bigString (x : Int) : separatorChar ∉ (bigString x).toList := by
  obtain ⟨_, _, h3⟩ := repr_spec x.natAbs
  have hrepr : separatorChar ∉ (Nat.repr x.natAbs).toList := by
    intro hmem
    exact absurd (h3 _ hmem).2 (by decide)
  by_cases hx : x < 0
  · rw [bigString_toList_neg x hx]
    intro hmem
    rcases List.mem_cons.mp hmem with h | h
    · exact absurd h (by decide)
    · exact hrepr h
  · rw [bigString_toList_nonneg x (by omega)]
    exact hrepr

theorem stringsSplit_BlockAndIdToKey (block id : Int) :
    stringsSplit (BlockAndIdToKey block id) = [bigString block, bigString id] := by
  have hkey : (BlockAndIdToKey block id).toList =
      (bigString block).toList ++ separatorChar :: (bigString id).toList := by
    simp [BlockAndIdToKey, separator, String.singleton]
  unfold stringsSplit
  rw [hkey, splitChars_append _ _ _ (separator_not_mem_bigString block),
    splitChars_of_not_mem _ _ (separator_not_mem_bigString id)]
  simp

/-- Parsing a formatted key gives the decimal text of the block and the id. -/
theorem BlockAndIdFromKey_formatted (block id : Int) :
    BlockAndIdFromKey (BlockAndIdToKey block id) = .ok (bigString block, id) := by
  unfold BlockAndIdFromKey
  rw [stringsSplit_BlockAndIdToKey]
  simp [SetString_bigString]

/-- **C5.** Round trip of the upkeep key wire format: for every pair of integers
`(block, id)`, `BlockAndIdFromKey (BlockAndIdToKey block id)` succeeds and returns the
decimal text of `block` as the block key together with an integer equal to `id`. -/
theorem BlockAndIdFromKey_BlockAndIdToKey (block id : Int) :
    BlockAndIdFromKey (BlockAndIdToKey block id) = .ok (bigString block, id) :=
  BlockAndIdFromKey_formatted block id

/-! ## The two-phase check: theorems -/

theorem respAt_tail (resps : List BatchResp) (i : Nat) :
    respAt resps.tail i = respAt resps (i + 1) := by
  cases resps <;> simp [respAt]

theorem getD_tail (results : List UpkeepResult) (i : Nat) :
    results.tail.getD i UpkeepResult.zero = results.getD (i + 1) UpkeepResult.zero := by
  cases results <;> simp

theorem headD_eq_getD (results : List UpkeepResult) :
    results.headD UpkeepResult.zero = results.getD 0 UpkeepResult.zero := by
  cases results <;> simp

/-- What the check-phase loop leaves at every position when it runs to its end. -/
theorem checkLoop_spec (r : evmRegistryv2_0) : ∀ (keys : List UpkeepKey)
    (resps : List BatchResp) (err errOut : Option GoError)
    (reqs : List (Option BatchElem)) (results : List UpkeepResult),
    checkLoop r keys resps err = .ok (errOut, reqs, results) →
    reqs.length = keys.length ∧ results.length = keys.length ∧
    ∀ (i : Nat) (key : UpkeepKey), keys[i]? = some key →
      (∀ e, respAt resps i = .error e →
        reqs[i]? = some none ∧ results[i]? = some UpkeepResult.zero) ∧
      (∀ s, respAt resps i = .result s →
        ∃ res req, buildPerformReq r key s = .ok (res, req) ∧
          reqs[i]? = some (some req) ∧ results[i]? = some res) := by
  intro keys
  induction keys with
  | nil =>
    intro resps err errOut reqs results h
    simp only [checkLoop, Except.ok.injEq, Prod.mk.injEq] at h
    obtain ⟨_, h2, h3⟩ := h
    subst h2 h3
    simp
  | cons k ks ih =>
    intro resps err errOut reqs results h
    unfold checkLoop at h
    cases hr : respAt resps 0 with
    | error e =>
      simp only [hr] at h
      split at h
      · exact absurd h (by simp)
      · next errOut1 reqs1 results1 hrec =>
        simp only [Except.ok.injEq, Prod.mk.injEq] at h
        obtain ⟨_, h2, h3⟩ := h
        subst h2 h3
        obtain ⟨hl1, hl2, hpt⟩ := ih _ _ _ _ _ hrec
        refine ⟨by simp [hl1], by simp [hl2], ?_⟩
        intro i key hkey
        cases i with
        | zero =>
          refine ⟨fun e' _ => by simp, fun s hs => ?_⟩
          rw [hr] at hs
          exact absurd hs (by simp)
        | succ j =>
          have hkey1 : ks[j]? = some key := by simpa using hkey
          have := hpt j key hkey1
          simp only [respAt_tail] at this
          simpa using this
    | result s =>
      simp only [hr] at h
      split at h
      · exact absurd h (by simp)
      · next res req hbuild =>
        split at h
        · exact absurd h (by simp)
        · next errOut1 reqs1 results1 hrec =>
          simp only [Except.ok.injEq, Prod.mk.injEq] at h
          obtain ⟨_, h2, h3⟩ := h
          subst h2 h3
          obtain ⟨hl1, hl2, hpt⟩ := ih _ _ _ _ _ hrec
          refine ⟨by simp [hl1], by simp [hl2], ?_⟩
          intro i key hkey
          cases i with
          | zero =>
            have hk : k = key := by simpa using hkey
            subst hk
            refine ⟨fun e' he' => ?_, fun s' hs' => ?_⟩
            · rw [hr] at he'
              exact absurd he' (by simp)
            · rw [hr] at hs'
              cases hs'
              exact ⟨res, req, hbuild, by simp, by simp⟩
          | succ j =>
            have hkey1 : ks[j]? = some key := by simpa using hkey
            have := hpt j key hkey1
            simp only [respAt_tail] at this
            simpa using this

/-- The result the perform-phase loop stores at a position whose response has no
error: the check result, with the state lowered when the simulation flag is false. -/
theorem performLoop_spec (r : evmRegistryv2_0) : ∀ (reqs : List (Option BatchElem))
    (results : List UpkeepResult) (resps : List BatchResp) (err errOut : Option GoError)
    (ur : List UpkeepResult),
    performLoop r reqs results resps err = .ok (errOut, ur) →
    ur.length = reqs.length ∧
    ∀ i : Nat, i < reqs.length →
      (∀ e, respAt resps i = .error e → ur[i]? = some UpkeepResult.zero) ∧
      (∀ s, respAt resps i = .result s →
        ∃ req b, reqs[i]? = some (some req) ∧
          r.abi.unmarshalPerformUpkeepSimulationResult s = .ok b ∧
          ur[i]? = some (applySimulation b (results.getD i UpkeepResult.zero))) := by
  intro reqs
  induction reqs with
  | nil =>
    intro results resps err errOut ur h
    simp only [performLoop, Outcome.ok.injEq, Prod.mk.injEq] at h
    obtain ⟨_, h2⟩ := h
    subst h2
    simp
  | cons q qs ih =>
    intro results resps err errOut ur h
    unfold performLoop at h
    cases hr : respAt resps 0 with
    | error e =>
      simp only [hr] at h
      split at h
      · next errOut1 ur1 hrec =>
        simp only [Outcome.ok.injEq, Prod.mk.injEq] at h
        obtain ⟨_, h2⟩ := h
        subst h2
        obtain ⟨hl, hpt⟩ := ih _ _ _ _ _ hrec
        refine ⟨by simp [hl], ?_⟩
        intro i hi
        cases i with
        | zero =>
          refine ⟨fun _ _ => by simp, fun s hs => ?_⟩
          rw [hr] at hs
          exact absurd hs (by simp)
        | succ j =>
          have := hpt j (by simpa using hi)
          simp only [respAt_tail, getD_tail] at this
          simpa using this
      · exact absurd h (by simp)
      · exact absurd h (by simp)
    | result s =>
      simp only [hr] at h
      cases q with
      | none => exact absurd h (by simp)
      | some req =>
        simp only at h
        split at h
        · exact absurd h (by simp)
        · next b hb =>
          split at h
          · next errOut1 ur1 hrec =>
            simp only [Outcome.ok.injEq, Prod.mk.injEq] at h
            obtain ⟨_, h2⟩ := h
            subst h2
            obtain ⟨hl, hpt⟩ := ih _ _ _ _ _ hrec
            refine ⟨by simp [hl], ?_⟩
            intro i hi
            cases i with
            | zero =>
              refine ⟨fun e' he' => ?_, fun s' hs' => ?_⟩
              · rw [hr] at he'
                exact absurd he' (by simp)
              · rw [hr] at hs'
                cases hs'
                refine ⟨req, b, by simp, hb, ?_⟩
                rw [headD_eq_getD]
                simp
            | succ j =>
              have := hpt j (by simpa using hi)
              simp only [respAt_tail, getD_tail] at this
              simpa using this
          · exact absurd h (by simp)
          · exact absurd h (by simp)

/-- When the perform-phase loop ends with a nil `err`, it started with a nil `err` and
every error among the responses contains "reverted". -/
theorem performLoop_err_none (r : evmRegistryv2_0) : ∀ (reqs : List (Option BatchElem))
    (results : List UpkeepResult) (resps : List BatchResp) (err : Option GoError)
    (ur : List UpkeepResult),
    performLoop r reqs results resps err = .ok (none, ur) →
    err = none ∧
    ∀ i : Nat, i < reqs.length → ∀ e, respAt resps i = .error e →
      stringsContains e.Error "reverted" = true := by
  intro reqs
  induction reqs with
  | nil =>
    intro results resps err ur h
    simp only [performLoop, Outcome.ok.injEq, Prod.mk.injEq] at h
    exact ⟨h.1, fun i hi => absurd hi (by simp)⟩
  | cons q qs ih =>
    intro results resps err ur h
    unfold performLoop at h
    cases hr : respAt resps 0 with
    | error e =>
      simp only [hr] at h
      split at h
      · next errOut1 ur1 hrec =>
        simp only [Outcome.ok.injEq, Prod.mk.injEq] at h
        obtain ⟨h1, _⟩ := h
        subst h1
        obtain ⟨he, hpt⟩ := ih _ _ _ _ hrec
        by_cases hc : stringsContains e.Error "reverted" = true
        · simp only [hc, if_true] at he
          refine ⟨he, ?_⟩
          intro i hi e' he'
          cases i with
          | zero =>
            rw [hr] at he'
            cases he'
            exact hc
          | succ j =>
            exact hpt j (by simpa using hi) e' (by rw [respAt_tail]; exact he')
        · simp only [hc] at he
          cases err <;> simp [multierrAppendInto] at he
      · exact absurd h (by simp)
      · exact absurd h (by simp)
    | result s =>
      simp only [hr] at h
      cases q with
      | none => exact absurd h (by simp)
      | some req =>
        simp only at h
        split at h
        · exact absurd h (by simp)
        · split at h
          · next errOut1 ur1 hrec =>
            simp only [Outcome.ok.injEq, Prod.mk.injEq] at h
            obtain ⟨h1, _⟩ := h
            subst h1
            obtain ⟨he, hpt⟩ := ih _ _ _ _ hrec
            refine ⟨he, ?_⟩
            intro i hi e' he'
            cases i with
            | zero =>
              rw [hr] at he'
              exact absurd he' (by simp)
            | succ j =>
              exact hpt j (by simpa using hi) e' (by rw [respAt_tail]; exact he')
          · exact absurd h (by simp)
          · exact absurd h (by simp)

/-- The perform-phase loop runs to its end with a nil `err` when every error among the
responses contains "reverted" and every response without error sits at a position
with a request and decodes. -/
theorem performLoop_ok (r : evmRegistryv2_0) : ∀ (reqs : List (Option BatchElem))
    (results : List UpkeepResult) (resps : List BatchResp),
    (∀ i : Nat, i < reqs.length → ∀ e, respAt resps i = .error e →
      stringsContains e.Error "reverted" = true) →
    (∀ i : Nat, i < reqs.length → ∀ s, respAt resps i = .result s →
      (∃ req, reqs[i]? = some (some req)) ∧
      ∃ b, r.abi.unmarshalPerformUpkeepSimulationResult s = .ok b) →
    ∃ ur, performLoop r reqs results resps none = .ok (none, ur) := by
  intro reqs
  induction reqs with
  | nil => intro results resps _ _; exact ⟨[], rfl⟩
  | cons q qs ih =>
    intro results resps herr hres
    have hrec : ∃ ur, performLoop r qs results.tail resps.tail none = .ok (none, ur) := by
      apply ih
      · intro i hi e he
        exact herr (i + 1) (by simpa using hi) e (by rw [← respAt_tail]; exact he)
      · intro i hi s hs
        have := hres (i + 1) (by simpa using hi) s (by rw [← respAt_tail]; exact hs)
        simpa using this
    obtain ⟨ur, hur⟩ := hrec
    unfold performLoop
    cases hr : respAt resps 0 with
    | error e =>
      have hc := herr 0 (by simp) e hr
      simp only [hc, if_true, hur]
      exact ⟨_, rfl⟩
    | result s =>
      obtain ⟨⟨req, hreq⟩, b, hb⟩ := hres 0 (by simp) s hr
      have hq : q = some req := by simpa using hreq
      subst hq
      simp only [hb, hur]
      exact ⟨_, rfl⟩

/-- A run of `check` that sends results went through both round trips and both loops,
and both loops ended with a nil `err`. -/
theorem check_ok_inv (r : evmRegistryv2_0) (keys : List UpkeepKey) (ur : List UpkeepResult)
    (h : check r keys = .ok ur) :
    ∃ cresps presps preqs results,
      checkResponses r keys = some cresps ∧ performResponses r keys = some presps ∧
      checkLoop r keys cresps none = .ok (none, preqs, results) ∧
      performLoop r preqs results presps none = .ok (none, ur) := by
  unfold check at h
  cases hb : buildCheckReqs r keys with
  | error e => simp [hb] at h
  | ok creqs =>
    cases hc : r.client.BatchCallContext (creqs.map some) with
    | error e => simp [hb, hc] at h
    | ok cresps =>
      have hcr : checkResponses r keys = some cresps := by simp [checkResponses, hb, hc]
      cases hl : checkLoop r keys cresps none with
      | error e => simp [hb, hc, hl] at h
      | ok out =>
        obtain ⟨errOut, preqs, results⟩ := out
        cases errOut with
        | some e => simp [hb, hc, hl] at h
        | none =>
          simp only [hb, hc, hl, checkPerformPhase] at h
          cases hp : r.client.BatchCallContext preqs with
          | error e => simp [hp] at h
          | ok presps =>
            have hpr : performResponses r keys = some presps := by
              simp [performResponses, hcr, hl, hp]
            cases hpl : performLoop r preqs results presps none with
            | panic => simp [hp, hpl] at h
            | err x => simp [hp, hpl] at h
            | ok out2 =>
              obtain ⟨errOut2, ur2⟩ := out2
              cases errOut2 with
              | some e => simp [hp, hpl] at h
              | none =>
                simp only [hp, hpl, Outcome.ok.injEq] at h
                subst h
                exact ⟨cresps, presps, preqs, results, hcr, hpr, hl, hpl⟩

/-- When the second round trip takes place, the check-phase loop ended with a nil
`err`, and what `check` sends is decided by the perform-phase loop. -/
theorem performResponses_inv (r : evmRegistryv2_0) (keys : List UpkeepKey)
    (presps : List BatchResp) (h : performResponses r keys = some presps) :
    ∃ cresps preqs results,
      checkResponses r keys = some cresps ∧
      checkLoop r keys cresps none = .ok (none, preqs, results) ∧
      check r keys =
        (match performLoop r preqs results presps none with
          | .panic => .panic
          | .err x => .err x
          | .ok (some e, _) => .err e
          | .ok (none, ur) => .ok ur) := by
  unfold performResponses at h
  cases hcr : checkResponses r keys with
  | none => simp [hcr] at h
  | some cresps =>
    simp only [hcr] at h
    unfold checkResponses at hcr
    cases hb : buildCheckReqs r keys with
    | error e => simp [hb] at hcr
    | ok creqs =>
      simp only [hb] at hcr
      cases hc : r.client.BatchCallContext (creqs.map some) with
      | error e => simp [hc] at hcr
      | ok cresps1 =>
        simp only [hc, Option.some.injEq] at hcr
        subst hcr
        cases hl : checkLoop r keys cresps1 none with
        | error e => simp [hl] at h
        | ok out =>
          obtain ⟨errOut, preqs, results⟩ := out
          cases errOut with
          | some e => simp [hl] at h
          | none =>
            simp only [hl] at h
            cases hp : r.client.BatchCallContext preqs with
            | error e => simp [hp] at h
            | ok presps1 =>
              simp only [hp, Option.some.injEq] at h
              subst h
              refine ⟨cresps1, preqs, results, ?_, hl, ?_⟩
              · simp [checkResponses, hb, hc]
              · simp [check, hb, hc, hl, checkPerformPhase, hp]

theorem CheckUpkeep_results_inv (r : evmRegistryv2_0) (keys : List UpkeepKey)
    (sel : SelectReady) (ur : List UpkeepResult)
    (h : CheckUpkeep r keys sel = some (some ur, none)) : check r keys = .ok ur := by
  unfold CheckUpkeep at h
  by_cases ht : sel.takesResult = true
  · simp only [ht, if_true] at h
    cases hc : check r keys with
    | ok ur1 =>
      simp only [hc, Option.some.injEq, Prod.mk.injEq, and_true] at h
      rw [h]
    | err e => simp [hc] at h
    | panic => simp [hc] at h
  · simp [ht] at h

theorem buildCheckReqs_unparsable (r : evmRegistryv2_0) : ∀ keys : List UpkeepKey,
    (∃ key ∈ keys, ∃ e, BlockAndIdFromKey key = .error e) →
    ∃ e, buildCheckReqs r keys = .error e := by
  intro keys
  induction keys with
  | nil => rintro ⟨key, hmem, _⟩; exact absurd hmem (by simp)
  | cons k ks ih =>
    rintro ⟨key, hmem, e, he⟩
    unfold buildCheckReqs
    cases hk : BlockAndIdFromKey k with
    | error e1 => exact ⟨e1, rfl⟩
    | ok bi =>
      obtain ⟨block, upkeepId⟩ := bi
      have hks : ∃ key ∈ ks, ∃ e, BlockAndIdFromKey key = .error e := by
        rcases List.mem_cons.mp hmem with hh | hh
        · subst hh
          rw [hk] at he
          exact absurd he (by simp)
        · exact ⟨key, hh, e, he⟩
      obtain ⟨e2, he2⟩ := ih hks
      simp only
      cases buildCallOpts r block with
      | error e3 => exact ⟨e3, rfl⟩
      | ok opts =>
        simp only
        cases r.abi.packCheckUpkeep upkeepId with
        | error e4 => exact ⟨e4, rfl⟩
        | ok payload => simp only [he2]; exact ⟨e2, rfl⟩

/-! ## The registry client: the claims -/

/-- On the range of non-negative 64-bit integers `Int64()` is the identity. -/
theorem bigInt64_of_nonneg_lt (x : Int) (h0 : 0 ≤ x) (h1 : x < 2 ^ 63) : bigInt64 x = x := by
  unfold bigInt64
  have hx : ¬ x < 0 := by omega
  have hn : ((x.natAbs % 2 ^ 64 : Nat) : Int) = x := by
    have : x.natAbs < 2 ^ 64 := by omega
    rw [Nat.mod_eq_of_lt this]
    omega
  simp only [hn, hx, if_false]
  have hm : x % 2 ^ 64 = x := Int.emod_eq_of_lt h0 (by omega)
  rw [hm, if_pos h1]

/-- The paging loop ends when the keys collected reach the reported number. -/
theorem pageLoop_done (r : evmRegistryv2_0) (opts : CallOpts) (numUpkeeps batchSize : Int)
    (fuel : Nat) (keys : List UpkeepKey) (h : ¬ (keys.length : Int) < numUpkeeps) :
    pageLoop r opts numUpkeeps batchSize fuel keys = some (.ok keys) := by
  unfold pageLoop
  simp [h]

/-- One turn of the paging loop on a page that is not empty: the keys collected so far
are replaced by as many empty keys, and the keys of the page are appended. -/
theorem pageLoop_step (r : evmRegistryv2_0) (opts : CallOpts) (numUpkeeps batchSize : Int)
    (fuel : Nat) (keys : List UpkeepKey) (page : List Int)
    (hlt : (keys.length : Int) < numUpkeeps)
    (hpage : r.registry.GetActiveUpkeepIDs opts keys.length
      (if numUpkeeps - keys.length > batchSize then batchSize else numUpkeeps - keys.length) =
        .ok page)
    (hne : page ≠ []) :
    pageLoop r opts numUpkeeps batchSize (fuel + 1) keys =
      pageLoop r opts numUpkeeps batchSize fuel
        (List.replicate keys.length "" ++ page.map (BlockAndIdToKey opts.BlockNumber)) := by
  conv => lhs; unfold pageLoop
  simp [hlt, hpage, hne]

/-- With a page size `B` and a registry that holds more than `B` and at most `2 * B`
ids, `GetActiveUpkeepKeys` fetches two pages and returns `B` empty keys followed by
the keys of the second page. -/
theorem GetActiveUpkeepKeysWith_second_page (latest : Int) (ids : List Int) (B : Nat)
    (hB : 1 ≤ B) (h1 : B < ids.length) (h2 : ids.length ≤ 2 * B)
    (h3 : (ids.length : Int) < 2 ^ 63) :
    GetActiveUpkeepKeysWith B (pagedRegistry latest ids) "0" =
      some (.ok (List.replicate B "" ++ (ids.drop B).map (BlockAndIdToKey latest))) := by
  have hset : SetString "0" = some 0 := by decide
  have hz : bigInt64 0 = 0 := by decide
  have hopts : buildCallOpts (pagedRegistry latest ids) "0" = .ok { BlockNumber := latest } := by
    simp [buildCallOpts, hset, hz, pagedRegistry]
  have hN : bigInt64 (ids.length : Int) = ids.length :=
    bigInt64_of_nonneg_lt _ (by omega) h3
  obtain ⟨n, hn⟩ : ∃ n, ids.length = n + 2 := ⟨ids.length - 2, by omega⟩
  have hfirst : ids.take B ≠ [] := by
    intro h
    have hl : (ids.take B).length = min B ids.length := List.length_take _ _
    rw [h] at hl
    simp only [List.length_nil] at hl
    omega
  have hsecond : ids.drop B ≠ [] := by
    intro h
    have hl : (ids.drop B).length = ids.length - B := List.length_drop _ _
    rw [h] at hl
    simp only [List.length_nil] at hl
    omega
  have hlen1 : ((ids.take B).map (BlockAndIdToKey latest)).length = B := by
    rw [List.length_map, List.length_take]
    omega
  have hstate : (pagedRegistry latest ids).registry.GetState { BlockNumber := latest } =
      .ok (ids.length : Int) := rfl
  unfold GetActiveUpkeepKeysWith
  simp only [hopts, hstate, hN, Int.toNat_ofNat]
  rw [hn]
  have step1 : pageLoop (pagedRegistry latest ids) { BlockNumber := latest }
      ((n + 2 : Nat) : Int) B (n + 1 + 1) [] =
      pageLoop (pagedRegistry latest ids) { BlockNumber := latest } ((n + 2 : Nat) : Int) B
        (n + 1) (List.replicate 0 "" ++ (ids.take B).map (BlockAndIdToKey latest)) := by
    apply pageLoop_step
    · simp only [List.length_nil]; omega
    · have hgt : ((n + 2 : Nat) : Int) - ((([] : List UpkeepKey).length : Nat) : Int) > (B : Int) := by
        simp only [List.length_nil]; omega
      rw [if_pos hgt]
      simp [pagedRegistry]
    · exact hfirst
  have step2 : pageLoop (pagedRegistry latest ids) { BlockNumber := latest }
      ((n + 2 : Nat) : Int) B (n + 1)
        (List.replicate 0 "" ++ (ids.take B).map (BlockAndIdToKey latest)) =
      pageLoop (pagedRegistry latest ids) { BlockNumber := latest } ((n + 2 : Nat) : Int) B n
        (List.replicate B "" ++ (ids.drop B).map (BlockAndIdToKey latest)) := by
    have hl : (List.replicate 0 "" ++ (ids.take B).map (BlockAndIdToKey latest)).length = B := by
      simpa using hlen1
    have := pageLoop_step (pagedRegistry latest ids) { BlockNumber := latest }
      ((n + 2 : Nat) : Int) B n
      (List.replicate 0 "" ++ (ids.take B).map (BlockAndIdToKey latest)) (ids.drop B)
      (by rw [hl]; omega)
      (by
        rw [hl]
        have hle : ¬ (((n + 2 : Nat) : Int) - (B : Int) > (B : Int)) := by omega
        rw [if_neg hle]
        have htn : (((n + 2 : Nat) : Int) - (B : Int)).toNat = n + 2 - B := by omega
        show Except.ok ((ids.drop (B : Int).toNat).take (((n + 2 : Nat) : Int) - (B : Int)).toNat) = _
        have htake : (ids.drop B).take (n + 2 - B) = ids.drop B := by
          apply List.take_of_length_le
          rw [List.length_drop]
          omega
        rw [htn, Int.toNat_ofNat, htake])
      hsecond
    rw [this, hl]
  have hl2 : (List.replicate B "" ++ (ids.drop B).map (BlockAndIdToKey latest)).length = n + 2 := by
    rw [List.length_append, List.length_replicate, List.length_map, List.length_drop]
    omega
  rw [step1, step2, pageLoop_done _ _ _ _ _ _ (by rw [hl2]; omega)]

/-- The same with the page size of the source: a registry with more than 10000 and at
most 20000 upkeeps gives 10000 empty keys followed by the keys of the second page. -/
theorem GetActiveUpkeepKeys_second_page (latest : Int) (ids : List Int)
    (h1 : 10000 < ids.length) (h2 : ids.length ≤ 20000) :
    GetActiveUpkeepKeys (pagedRegistry latest ids) "0" =
      some (.ok (List.replicate 10000 "" ++ (ids.drop 10000).map (BlockAndIdToKey latest))) := by
  have h3 : (ids.length : Int) < 2 ^ 63 := by
    have : (ids.length : Int) ≤ 20000 := by exact_mod_cast h2
    have h63 : (20000 : Int) < 2 ^ 63 := by norm_num
    omega
  exact GetActiveUpkeepKeysWith_second_page latest ids 10000 (by omega) h1 (by omega) h3

/-- **C1** (what the code does instead).  With page size 2, block 4 and a registry
that holds the ids 1, 2, 3, 4, reports 4 upkeeps and answers every page request
`(start, count)` with `ids[start .. start+count)`, `GetActiveUpkeepKeys` fetches two
pages and returns four keys of which the first two are empty: the keys of the first
page are lost, because `copy(keys, buffer)` copies the empty buffer over the keys
instead of the keys into the buffer. -/
theorem GetActiveUpkeepKeys_two_pages :
    GetActiveUpkeepKeysWith 2 (pagedRegistry 4 [1, 2, 3, 4]) "0" =
        some (.ok ["", "", "4|3", "4|4"]) ∧
    [BlockAndIdToKey 4 1, BlockAndIdToKey 4 2, BlockAndIdToKey 4 3, BlockAndIdToKey 4 4] =
        ["4|1", "4|2", "4|3", "4|4"] ∧
    GetActiveUpkeepKeysWith 4 (pagedRegistry 4 [1, 2, 3, 4]) "0" =
        some (.ok ["4|1", "4|2", "4|3", "4|4"]) := by
  decide

/-- **C2** (what the code does instead).  Batch of two keys; the check response of the
first key carries the error "connection refused" (which does not contain "reverted"),
the check response of the second key is a success.  Decoding the second response
assigns nil to the variable that held the first key's error, so the check-phase loop
ends without error; with the simulate-perform response at the first position being a
revert, `CheckUpkeep` returns two results and no error. -/
theorem CheckUpkeep_loses_check_error :
    checkResponses
        (scriptedRegistry [.error (.plain "connection refused"), .result "eligible"]
          [.error (.plain "execution reverted"), .result "true"]) ["1|1", "1|2"] =
      some [.error (.plain "connection refused"), .result "eligible"] ∧
    stringsContains (GoError.plain "connection refused").Error "reverted" = false ∧
    CheckUpkeep
        (scriptedRegistry [.error (.plain "connection refused"), .result "eligible"]
          [.error (.plain "execution reverted"), .result "true"]) ["1|1", "1|2"]
        .resultOnly =
      some (some [UpkeepResult.zero,
        { UpkeepResult.zero with Key := "1|2", State := .Eligible }], none) := by
  decide

/-- **C3.** Whenever `CheckUpkeep` returns results without error, there is one result
per key, and for the result at every position `i`:
* its state is `Eligible` only if the check response at `i` has no error and the
  simulate-perform response at `i` has no error and decodes to the flag `true`;
* if the check response at `i` has no error and the simulate-perform response at `i`
  carries an error containing "reverted", or decodes to the flag `false`, the state is
  `NotEligible`. -/
theorem CheckUpkeep_eligible_only_if (r : evmRegistryv2_0) (keys : List UpkeepKey)
    (sel : SelectReady) (ur : List UpkeepResult)
    (h : CheckUpkeep r keys sel = some (some ur, none)) :
    ∃ cresps presps,
      checkResponses r keys = some cresps ∧ performResponses r keys = some presps ∧
      ur.length = keys.length ∧
      ∀ (i : Nat) (res : UpkeepResult), ur[i]? = some res →
        (res.State = .Eligible →
          ∃ s p, respAt cresps i = .result s ∧ respAt presps i = .result p ∧
            r.abi.unmarshalPerformUpkeepSimulationResult p = .ok true) ∧
        (∀ s, respAt cresps i = .result s →
          ((∃ e, respAt presps i = .error e ∧ stringsContains e.Error "reverted" = true) ∨
            (∃ p, respAt presps i = .result p ∧
              r.abi.unmarshalPerformUpkeepSimulationResult p = .ok false)) →
          res.State = .NotEligible) := by
  have hcheck := CheckUpkeep_results_inv r keys sel ur h
  obtain ⟨cresps, presps, preqs, results, hcr, hpr, hcl, hpl⟩ := check_ok_inv r keys ur hcheck
  obtain ⟨hlreq, _, hcpt⟩ := checkLoop_spec r keys cresps none none preqs results hcl
  obtain ⟨hlur, hppt⟩ := performLoop_spec r preqs results presps none none ur hpl
  refine ⟨cresps, presps, hcr, hpr, by rw [hlur, hlreq], ?_⟩
  intro i res hres
  have hi : i < preqs.length := by
    have := (List.getElem?_eq_some_iff.mp hres).1
    omega
  have hik : i < keys.length := by omega
  obtain ⟨hperr, hpres⟩ := hppt i hi
  obtain ⟨hcerr, _⟩ := hcpt i keys[i] (List.getElem?_eq_getElem hik)
  constructor
  · intro hE
    cases hp : respAt presps i with
    | error e =>
      have hz := hperr e hp
      rw [hres] at hz
      cases hz
      exact absurd hE (by simp [UpkeepResult.zero])
    | result p =>
      obtain ⟨req, b, hreq, hb, hu⟩ := hpres p hp
      rw [hres] at hu
      cases hu
      cases hcs : respAt cresps i with
      | error e =>
        have := (hcerr e hcs).1
        rw [hreq] at this
        exact absurd this (by simp)
      | result s =>
        cases b with
        | false => exact absurd hE (by simp [applySimulation])
        | true => exact ⟨s, p, rfl, rfl, hb⟩
  · intro s _ hcase
    rcases hcase with ⟨e, he, _⟩ | ⟨p, hp, hfalse⟩
    · have hz := hperr e he
      rw [hres] at hz
      cases hz
      rfl
    · obtain ⟨req, b, _, hb, hu⟩ := hpres p hp
      rw [hfalse] at hb
      cases hb
      rw [hres] at hu
      cases hu
      rfl

/-- An instance of **C3**: two keys whose checks succeed with an eligible result; the
simulated perform of the first reverts, that of the second succeeds. -/
theorem CheckUpkeep_eligible_only_if_witness :
    ∃ cresps presps,
      checkResponses
          (scriptedRegistry [.result "eligible", .result "eligible"]
            [.error (.plain "execution reverted"), .result "true"]) ["1|1", "1|2"] =
        some cresps ∧
      performResponses
          (scriptedRegistry [.result "eligible", .result "eligible"]
            [.error (.plain "execution reverted"), .result "true"]) ["1|1", "1|2"] =
        some presps ∧
      [UpkeepResult.zero,
        { UpkeepResult.zero with Key := "1|2", State := .Eligible }].length =
        ["1|1", "1|2"].length ∧
      ∀ (i : Nat) (res : UpkeepResult),
        [UpkeepResult.zero,
          { UpkeepResult.zero with Key := "1|2", State := .Eligible }][i]? = some res →
        (res.State = .Eligible →
          ∃ s p, respAt cresps i = .result s ∧ respAt presps i = .result p ∧
            scriptedCodec.unmarshalPerformUpkeepSimulationResult p = .ok true) ∧
        (∀ s, respAt cresps i = .result s →
          ((∃ e, respAt presps i = .error e ∧ stringsContains e.Error "reverted" = true) ∨
            (∃ p, respAt presps i = .result p ∧
              scriptedCodec.unmarshalPerformUpkeepSimulationResult p = .ok false)) →
          res.State = .NotEligible) :=
  CheckUpkeep_eligible_only_if
    (scriptedRegistry [.result "eligible", .result "eligible"]
      [.error (.plain "execution reverted"), .result "true"]) ["1|1", "1|2"] .resultOnly
    [UpkeepResult.zero, { UpkeepResult.zero with Key := "1|2", State := .Eligible }]
    (by decide)

/-- **C4** (what the code does instead).  The batch of the test `Skip`: the one key
"1|1234", whose check response carries the error
"execution reverted: UpkeepNotNeeded".  The check-phase loop skips the position and
builds no simulate-perform request for it, yet the zero element is sent in the second
batch and read by the perform-phase loop.  No response of either phase carries an
error without "reverted" when the client leaves that element untouched, and then the
worker reads the nil result slot and panics: `CheckUpkeep` gets no outcome.  When the
client answers the element with an error for the request that has no method,
`CheckUpkeep` returns that error.  Only when the client answers it with a revert does
`CheckUpkeep` return no error and the state `NotEligible`. -/
theorem CheckUpkeep_reverted_check :
    stringsContains (GoError.plain "execution reverted: UpkeepNotNeeded").Error "reverted" =
      true ∧
    checkResponses
        (scriptedRegistry [.error (.plain "execution reverted: UpkeepNotNeeded")] [])
        ["1|1234"] =
      some [.error (.plain "execution reverted: UpkeepNotNeeded")] ∧
    performResponses
        (scriptedRegistry [.error (.plain "execution reverted: UpkeepNotNeeded")] [])
        ["1|1234"] = some [] ∧
    check (scriptedRegistry [.error (.plain "execution reverted: UpkeepNotNeeded")] [])
        ["1|1234"] = .panic ∧
    CheckUpkeep (scriptedRegistry [.error (.plain "execution reverted: UpkeepNotNeeded")] [])
        ["1|1234"] .resultOnly = none ∧
    CheckUpkeep
        (scriptedRegistry [.error (.plain "execution reverted: UpkeepNotNeeded")]
          [.error (.plain "the method  does not exist/is not available")])
        ["1|1234"] .resultOnly =
      some (none, some (.plain "the method  does not exist/is not available")) ∧
    CheckUpkeep
        (scriptedRegistry [.error (.plain "execution reverted: UpkeepNotNeeded")]
          [.error (.plain "execution reverted")])
        ["1|1234"] .resultOnly = some (some [UpkeepResult.zero], none) := by
  decide

/-- A reverted check next to a response that does not decode.  Batch of two keys; the
check of the first key reverts, the check response of the second key has no error but
does not decode.  No response of either phase carries an error other than the revert
(the second round trip never takes place), and `CheckUpkeep` returns the decoder's
error. -/
theorem CheckUpkeep_revert_counterexample :
    checkResponses
        (scriptedRegistry [.error (.plain "execution reverted"), .result "garbage"] [])
        ["1|1", "1|2"] =
      some [.error (.plain "execution reverted"), .result "garbage"] ∧
    stringsContains (GoError.plain "execution reverted").Error "reverted" = true ∧
    performResponses
        (scriptedRegistry [.error (.plain "execution reverted"), .result "garbage"] [])
        ["1|1", "1|2"] = none ∧
    CheckUpkeep
        (scriptedRegistry [.error (.plain "execution reverted"), .result "garbage"] [])
        ["1|1", "1|2"] .resultOnly =
      some (none, some (.plain "abi: cannot unmarshal")) := by
  decide

/-- The one way a reverted check ends as the state `NotEligible`.  Take a batch for
which both batched round trips take place (so every key parsed and every check
response without error decoded).  If the check response at position `i` carries an
error containing "reverted", no simulate-perform response carries an error without
"reverted", every simulate-perform response without error decodes, and the
simulate-perform response at every position whose check response carries an error
carries an error too (so the client answers the request that was never built with a
revert), then the worker sends results and no error, `CheckUpkeep` returns them, and
the result at position `i` has state `NotEligible`. -/
theorem CheckUpkeep_revert_not_eligible (r : evmRegistryv2_0) (keys : List UpkeepKey)
    (cresps presps : List BatchResp) (i : Nat) (e : GoError)
    (hcr : checkResponses r keys = some cresps)
    (hpr : performResponses r keys = some presps)
    (hi : i < keys.length)
    (hrev : respAt cresps i = .error e)
    (_hcont : stringsContains e.Error "reverted" = true)
    (hperr : ∀ j : Nat, j < keys.length → ∀ e1, respAt presps j = .error e1 →
      stringsContains e1.Error "reverted" = true)
    (hdec : ∀ j : Nat, j < keys.length → ∀ p, respAt presps j = .result p →
      ∃ b, r.abi.unmarshalPerformUpkeepSimulationResult p = .ok b)
    (hslot : ∀ j : Nat, j < keys.length → ∀ e1, respAt cresps j = .error e1 →
      ∃ e2, respAt presps j = .error e2) :
    ∃ ur res, check r keys = .ok ur ∧
      CheckUpkeep r keys .resultOnly = some (some ur, none) ∧
      ur.length = keys.length ∧ ur[i]? = some res ∧ res.State = .NotEligible := by
  obtain ⟨cresps1, preqs, results, hcr1, hcl, hcheck⟩ := performResponses_inv r keys presps hpr
  rw [hcr] at hcr1
  cases hcr1
  obtain ⟨hlreq, _, hcpt⟩ := checkLoop_spec r keys cresps none none preqs results hcl
  have hok : ∃ ur, performLoop r preqs results presps none = .ok (none, ur) := by
    apply performLoop_ok
    · intro j hj e1 he1
      exact hperr j (by omega) e1 he1
    · intro j hj p hp
      have hjk : j < keys.length := by omega
      refine ⟨?_, hdec j hjk p hp⟩
      obtain ⟨_, hcres⟩ := hcpt j keys[j] (List.getElem?_eq_getElem hjk)
      cases hc : respAt cresps j with
      | error e1 =>
        obtain ⟨e2, he2⟩ := hslot j hjk e1 hc
        rw [hp] at he2
        exact absurd he2 (by simp)
      | result s =>
        obtain ⟨_, req, _, hreq, _⟩ := hcres s hc
        exact ⟨req, hreq⟩
  obtain ⟨ur, hur⟩ := hok
  obtain ⟨hlur, hppt⟩ := performLoop_spec r preqs results presps none none ur hur
  have hck : check r keys = .ok ur := by rw [hcheck, hur]
  obtain ⟨e2, he2⟩ := hslot i hi e hrev
  have hz := (hppt i (by omega)).1 e2 he2
  refine ⟨ur, UpkeepResult.zero, hck, ?_, by omega, hz, rfl⟩
  simp [CheckUpkeep, SelectReady.takesResult, hck]

/-- An instance of the previous theorem: the check of the first key reverts and so does the
simulate-perform response at its position; the second key is eligible. -/
theorem CheckUpkeep_revert_not_eligible_witness :
    ∃ ur res,
      check
          (scriptedRegistry [.error (.plain "execution reverted"), .result "eligible"]
            [.error (.plain "execution reverted"), .result "true"]) ["1|1", "1|2"] =
        .ok ur ∧
      CheckUpkeep
          (scriptedRegistry [.error (.plain "execution reverted"), .result "eligible"]
            [.error (.plain "execution reverted"), .result "true"]) ["1|1", "1|2"]
          .resultOnly = some (some ur, none) ∧
      ur.length = ["1|1", "1|2"].length ∧ ur[0]? = some res ∧ res.State = .NotEligible :=
  CheckUpkeep_revert_not_eligible
    (scriptedRegistry [.error (.plain "execution reverted"), .result "eligible"]
      [.error (.plain "execution reverted"), .result "true"]) ["1|1", "1|2"]
    [.error (.plain "execution reverted"), .result "eligible"]
    [.error (.plain "execution reverted"), .result "true"] 0 (.plain "execution reverted")
    (by decide) (by decide) (by decide) (by decide) (by decide)
    (by
      intro j hj e1 he1
      have hj2 : j < 2 := hj
      interval_cases j
      · cases he1; decide
      · simp [respAt] at he1)
    (by
      intro j hj p hp
      have hj2 : j < 2 := hj
      interval_cases j
      · simp [respAt] at hp
      · cases hp; exact ⟨true, by decide⟩)
    (by
      intro j hj e1 he1
      have hj2 : j < 2 := hj
      interval_cases j
      · exact ⟨_, rfl⟩
      · simp [respAt] at he1)

/-- **C8** fails as stated.  Batch of two keys of which the first parses and the second
does not: `CheckUpkeep` returns no result at all, not even for the first key, and the
error of the second key. -/
theorem CheckUpkeep_unparsable_counterexample :
    BlockAndIdFromKey "1|1" = .ok ("1", 1) ∧
    BlockAndIdFromKey "oops" =
      .error (.wrap (.sentinel .ErrUpkeepKeyNotParsable)
        "upkeep key not parsable: missing data in upkeep key") ∧
    CheckUpkeep (scriptedRegistry [.result "eligible", .result "eligible"] [.result "true"])
        ["1|1", "oops"] .resultOnly =
      some (none, some (.wrap (.sentinel .ErrUpkeepKeyNotParsable)
        "upkeep key not parsable: missing data in upkeep key")) := by
  decide

/-- **C8**, amended.  For every batch that contains a key that does not parse as an
upkeep key, `CheckUpkeep` fails the whole batch: the worker sends an error before the
first round trip, and whichever case the `select` statement takes, `CheckUpkeep`
returns an error and results for no key. -/
theorem CheckUpkeep_unparsable_fails_batch (r : evmRegistryv2_0) (keys : List UpkeepKey)
    (h : ∃ key ∈ keys, ∃ e, BlockAndIdFromKey key = .error e) :
    (∃ e, check r keys = .err e) ∧ checkResponses r keys = none ∧
    ∀ sel : SelectReady, ∃ e, CheckUpkeep r keys sel = some (none, some e) := by
  obtain ⟨e, he⟩ := buildCheckReqs_unparsable r keys h
  have hck : check r keys = .err e := by simp [check, he]
  refine ⟨⟨e, hck⟩, by simp [checkResponses, he], ?_⟩
  intro sel
  unfold CheckUpkeep
  by_cases ht : sel.takesResult = true
  · exact ⟨e, by simp [ht, hck]⟩
  · exact ⟨_, by simp only [ht]; rfl⟩

/-- An instance of **C8**, amended: the batch of the counterexample. -/
theorem CheckUpkeep_unparsable_fails_batch_witness :
    (∃ e, check (scriptedRegistry [.result "eligible"] [.result "true"]) ["1|1", "oops"] =
      .err e) ∧
    checkResponses (scriptedRegistry [.result "eligible"] [.result "true"]) ["1|1", "oops"] =
      none ∧
    ∀ sel : SelectReady, ∃ e,
      CheckUpkeep (scriptedRegistry [.result "eligible"] [.result "true"]) ["1|1", "oops"] sel =
        some (none, some e) :=
  CheckUpkeep_unparsable_fails_batch (scriptedRegistry [.result "eligible"] [.result "true"])
    ["1|1", "oops"] ⟨"oops", by decide, _, rfl⟩

/-- **C9.** When the `select` statement of `CheckUpkeep` finds the context done and no
outcome delivered by the worker, `CheckUpkeep` returns no results and an error that
wraps `ErrContextCancelled` and does not wrap `ErrRegistryCallFailure`, whatever the
registry, the client and the keys are. -/
theorem CheckUpkeep_cancelled (r : evmRegistryv2_0) (keys : List UpkeepKey) :
    ∃ e, CheckUpkeep r keys .doneOnly = some (none, some e) ∧
      e.Is .ErrContextCancelled = true ∧ e.Is .ErrRegistryCallFailure = false :=
  ⟨_, rfl, rfl, rfl⟩

/-! ## The registry client: key format, identifiers -/

theorem splitChars_ne_nil (sep : Char) (cs : List Char) : splitChars sep cs ≠ [] := by
  cases cs with
  | nil => simp [splitChars]
  | cons c cs =>
    unfold splitChars
    by_cases h : c = sep
    · simp [h]
    · simp only [h, if_false]
      cases splitChars sep cs <;> simp

theorem splitChars_eq_singleton (sep : Char) : ∀ (cs b : List Char),
    splitChars sep cs = [b] → cs = b ∧ sep ∉ b := by
  intro cs
  induction cs with
  | nil =>
    intro b h
    simp only [splitChars, List.cons.injEq, and_true] at h
    subst h
    simp
  | cons c cs ih =>
    intro b h
    unfold splitChars at h
    by_cases hc : c = sep
    · simp only [hc, if_true, List.cons.injEq] at h
      exact absurd h.2 (splitChars_ne_nil sep cs)
    · simp only [hc, if_false] at h
      cases hs : splitChars sep cs with
      | nil => exact absurd hs (splitChars_ne_nil sep cs)
      | cons p ps =>
        simp only [hs, List.cons.injEq] at h
        obtain ⟨hb, hps⟩ := h
        subst hps
        obtain ⟨hcs, hnot⟩ := ih p hs
        subst hb hcs
        refine ⟨rfl, ?_⟩
        intro hmem
        rcases List.mem_cons.mp hmem with h1 | h1
        · exact hc h1.symm
        · exact hnot h1

theorem splitChars_eq_pair (sep : Char) : ∀ (cs a b : List Char),
    splitChars sep cs = [a, b] → cs = a ++ sep :: b ∧ sep ∉ a ∧ sep ∉ b := by
  intro cs
  induction cs with
  | nil =>
    intro a b h
    simp [splitChars] at h
  | cons c cs ih =>
    intro a b h
    unfold splitChars at h
    by_cases hc : c = sep
    · simp only [hc, if_true, List.cons.injEq] at h
      obtain ⟨ha, hrest⟩ := h
      obtain ⟨hcs, hnot⟩ := splitChars_eq_singleton sep cs b hrest
      subst ha hcs hc
      exact ⟨rfl, by simp, hnot⟩
    · simp only [hc, if_false] at h
      cases hs : splitChars sep cs with
      | nil => exact absurd hs (splitChars_ne_nil sep cs)
      | cons p ps =>
        simp only [hs, List.cons.injEq] at h
        obtain ⟨ha, hps⟩ := h
        subst hps
        obtain ⟨hcs, hnota, hnotb⟩ := ih p b hs
        subst ha
        refine ⟨by rw [hcs]; rfl, ?_, hnotb⟩
        intro hmem
        rcases List.mem_cons.mp hmem with h1 | h1
        · exact hc h1.symm
        · exact hnota h1

/-- Every error of `BlockAndIdFromKey` wraps `ErrUpkeepKeyNotParsable`. -/
theorem BlockAndIdFromKey_error_Is (key : UpkeepKey) (e : GoError)
    (h : BlockAndIdFromKey key = .error e) : e.Is .ErrUpkeepKeyNotParsable = true := by
  unfold BlockAndIdFromKey at h
  split at h
  · split at h
    · simp only [Except.error.injEq] at h
      subst h
      rfl
    · exact absurd h (by simp)
  · simp only [Except.error.injEq] at h
    subst h
    rfl

/-- **C15** fails as stated.  The key "abc|5" has a block part that is not a decimal
integer, and `BlockAndIdFromKey` succeeds on it: it returns the block part as it is. -/
theorem BlockAndIdFromKey_block_counterexample :
    SetString "abc" = none ∧ BlockAndIdFromKey "abc|5" = .ok ("abc", 5) := by
  decide

/-- **C15**, amended.  `BlockAndIdFromKey key` succeeds with `(block, id)` exactly when
`key` is `block`, the separator and a text that reads as the decimal integer `id`,
with no separator inside `block` or inside that text; `block` is not examined any
further.  On every other key it returns an error that wraps
`ErrUpkeepKeyNotParsable`. -/
theorem BlockAndIdFromKey_spec (key : UpkeepKey) :
    (∀ (block : BlockKey) (id : Int),
      BlockAndIdFromKey key = .ok (block, id) ↔
        ∃ idText : String, key = block ++ separator ++ idText ∧
          separatorChar ∉ block.toList ∧ separatorChar ∉ idText.toList ∧
          SetString idText = some id) ∧
    ((∃ block id, BlockAndIdFromKey key = .ok (block, id)) ∨
      ∃ e, BlockAndIdFromKey key = .error e ∧ e.Is .ErrUpkeepKeyNotParsable = true) := by
  constructor
  · intro block id
    constructor
    · intro h
      unfold BlockAndIdFromKey at h
      split at h
      · next p0 p1 hsplit =>
        split at h
        · exact absurd h (by simp)
        · next id1 hset =>
          simp only [Except.ok.injEq, Prod.mk.injEq] at h
          obtain ⟨hb, hid⟩ := h
          subst hb hid
          have hmap : List.map String.mk (splitChars separatorChar key.toList) = [p0, p1] :=
            hsplit
          cases hcs : splitChars separatorChar key.toList with
          | nil => exact absurd hcs (splitChars_ne_nil _ _)
          | cons a rest =>
            cases rest with
            | nil => rw [hcs] at hmap; simp at hmap
            | cons b rest2 =>
              cases rest2 with
              | cons _ _ => rw [hcs] at hmap; simp at hmap
              | nil =>
                rw [hcs] at hmap
                simp only [List.map_cons, List.map_nil, List.cons.injEq, and_true] at hmap
                obtain ⟨hp0, hp1⟩ := hmap
                subst hp0 hp1
                obtain ⟨hkey, hna, hnb⟩ := splitChars_eq_pair _ _ _ _ hcs
                refine ⟨String.mk b, ?_, hna, hnb, hset⟩
                apply String.ext
                have hdata : key.data = a ++ separatorChar :: b := hkey
                simp [separator, String.singleton, hdata]
      · exact absurd h (by simp)
    · rintro ⟨idText, hkey, hna, hnb, hset⟩
      have hsplit : stringsSplit key = [block, idText] := by
        unfold stringsSplit
        have hk : key.toList = block.toList ++ separatorChar :: idText.toList := by
          rw [hkey]
          simp [separator, String.singleton]
        rw [hk, splitChars_append _ _ _ hna, splitChars_of_not_mem _ _ hnb]
        simp
      unfold BlockAndIdFromKey
      rw [hsplit]
      simp [hset]
  · cases h : BlockAndIdFromKey key with
    | ok bi => exact Or.inl ⟨bi.1, bi.2, rfl⟩
    | error e => exact Or.inr ⟨e, rfl, BlockAndIdFromKey_error_Is key e h⟩

theorem bytesOfNat_acc (fuel : Nat) : ∀ (n : Nat) (acc : List Nat),
    bytesOfNat fuel n acc = bytesOfNat fuel n [] ++ acc := by
  induction fuel with
  | zero => intro n acc; simp [bytesOfNat]
  | succ f ih =>
    intro n acc
    simp only [bytesOfNat]
    by_cases h : n = 0
    · simp [h]
    · simp only [h, if_false]
      rw [ih (n / 256) (n % 256 :: acc), ih (n / 256) [n % 256]]
      simp

theorem bytesValue_append_singleton (xs : List Nat) (b : Nat) :
    bytesValue (xs ++ [b]) = 256 * bytesValue xs + b := by
  simp [bytesValue, List.foldl_append]

/-- The bytes of a number spell the number, and each of them is below 256. -/
theorem bytesOfNat_spec (fuel : Nat) : ∀ n : Nat, n ≤ fuel →
    bytesValue (bytesOfNat fuel n []) = n ∧ ∀ b ∈ bytesOfNat fuel n [], b < 256 := by
  induction fuel with
  | zero =>
    intro n hn
    have : n = 0 := by omega
    subst this
    simp [bytesOfNat, bytesValue]
  | succ f ih =>
    intro n hn
    simp only [bytesOfNat]
    by_cases h : n = 0
    · simp [h, bytesValue]
    · simp only [h, if_false]
      have hlt : n / 256 ≤ f := by omega
      obtain ⟨h1, h2⟩ := ih (n / 256) hlt
      rw [bytesOfNat_acc f (n / 256) [n % 256]]
      refine ⟨?_, ?_⟩
      · rw [bytesValue_append_singleton, h1]
        omega
      · intro b hb
        rcases List.mem_append.mp hb with hb | hb
        · exact h2 b hb
        · simp only [List.mem_singleton] at hb
          subst hb
          exact Nat.mod_lt _ (by decide)

/-- **C17.** For every non-negative `id` and every two block numbers,
`IdentifierFromKey` succeeds on both keys and returns the same identifier, the
big-endian bytes of `id` (bytes below 256 that spell `id`); and on every key,
`IdentifierFromKey` fails exactly when `BlockAndIdFromKey` fails, with the same error,
which wraps `ErrUpkeepKeyNotParsable`. -/
theorem IdentifierFromKey_spec (id b1 b2 : Int) (hid : 0 ≤ id) :
    IdentifierFromKey (BlockAndIdToKey b1 id) = .ok (bigBytes id) ∧
    IdentifierFromKey (BlockAndIdToKey b2 id) = .ok (bigBytes id) ∧
    ((bytesValue (bigBytes id) : Nat) : Int) = id ∧
    (∀ b ∈ bigBytes id, b < 256) ∧
    (∀ (key : UpkeepKey) (e : GoError),
      IdentifierFromKey key = .error e ↔ BlockAndIdFromKey key = .error e) ∧
    (∀ (key : UpkeepKey) (e : GoError),
      IdentifierFromKey key = .error e → e.Is .ErrUpkeepKeyNotParsable = true) := by
  have hiff : ∀ (key : UpkeepKey) (e : GoError),
      IdentifierFromKey key = .error e ↔ BlockAndIdFromKey key = .error e := by
    intro key e
    unfold IdentifierFromKey
    cases h : BlockAndIdFromKey key with
    | error e1 => simp
    | ok bi => simp
  obtain ⟨hv, hb⟩ := bytesOfNat_spec id.natAbs id.natAbs (le_refl _)
  refine ⟨?_, ?_, ?_, hb, hiff, ?_⟩
  · simp [IdentifierFromKey, BlockAndIdFromKey_formatted]
  · simp [IdentifierFromKey, BlockAndIdFromKey_formatted]
  · show ((bytesValue (bytesOfNat id.natAbs id.natAbs []) : Nat) : Int) = id
    rw [hv]
    omega
  · intro key e h
    exact BlockAndIdFromKey_error_Is key e ((hiff key e).mp h)

/-- An instance of **C17**: the id 258 at the blocks 4 and 9. -/
theorem IdentifierFromKey_spec_witness :
    IdentifierFromKey (BlockAndIdToKey 4 258) = .ok (bigBytes 258) ∧
    IdentifierFromKey (BlockAndIdToKey 9 258) = .ok (bigBytes 258) ∧
    ((bytesValue (bigBytes 258) : Nat) : Int) = 258 ∧
    (∀ b ∈ bigBytes 258, b < 256) ∧
    (∀ (key : UpkeepKey) (e : GoError),
      IdentifierFromKey key = .error e ↔ BlockAndIdFromKey key = .error e) ∧
    (∀ (key : UpkeepKey) (e : GoError),
      IdentifierFromKey key = .error e → e.Is .ErrUpkeepKeyNotParsable = true) :=
  IdentifierFromKey_spec 258 4 9 (by decide)

/-! ## The registry client: the paging loop ends -/

/-- The counting loop gives the result of the paging loop. -/
theorem pageLoopCount_fst (r : evmRegistryv2_0) (opts : CallOpts) (numUpkeeps batchSize : Int)
    (fuel : Nat) : ∀ keys : List UpkeepKey,
    (pageLoopCount r opts numUpkeeps batchSize fuel keys).map Prod.fst =
      pageLoop r opts numUpkeeps batchSize fuel keys := by
  induction fuel with
  | zero =>
    intro keys
    unfold pageLoopCount pageLoop
    by_cases h : (keys.length : Int) < numUpkeeps <;> simp [h]
  | succ f ih =>
    intro keys
    conv => lhs; unfold pageLoopCount
    conv => rhs; unfold pageLoop
    by_cases h : (keys.length : Int) < numUpkeeps
    · simp only [h, if_true]
      cases hp : r.registry.GetActiveUpkeepIDs opts keys.length
          (if numUpkeeps - keys.length > batchSize then batchSize
            else numUpkeeps - keys.length) with
      | error e => simp
      | ok page =>
        simp only
        by_cases hz : (page.map (BlockAndIdToKey opts.BlockNumber)).length = 0
        · simp [hz]
        · simp only [hz, if_false]
          rw [← ih]
          cases pageLoopCount r opts numUpkeeps batchSize f
              (List.replicate keys.length "" ++ page.map (BlockAndIdToKey opts.BlockNumber)) with
          | none => rfl
          | some out => rfl
    · simp [h]

/-- With at least as much fuel as keys are missing, the loop ends, after at most as
many page requests as keys are missing. -/
theorem pageLoopCount_bound (r : evmRegistryv2_0) (opts : CallOpts) (numUpkeeps batchSize : Int)
    (fuel : Nat) : ∀ keys : List UpkeepKey,
    (numUpkeeps - keys.length).toNat ≤ fuel →
    ∃ res n, pageLoopCount r opts numUpkeeps batchSize fuel keys = some (res, n) ∧
      n ≤ (numUpkeeps - keys.length).toNat := by
  induction fuel with
  | zero =>
    intro keys hfuel
    unfold pageLoopCount
    have h : ¬ (keys.length : Int) < numUpkeeps := by omega
    simp only [h, if_false]
    exact ⟨_, 0, rfl, by omega⟩
  | succ f ih =>
    intro keys hfuel
    conv => enter [1, res, 1, n, 1, 1]; unfold pageLoopCount
    by_cases h : (keys.length : Int) < numUpkeeps
    · simp only [h, if_true]
      cases hp : r.registry.GetActiveUpkeepIDs opts keys.length
          (if numUpkeeps - keys.length > batchSize then batchSize
            else numUpkeeps - keys.length) with
      | error e => exact ⟨_, 1, rfl, by omega⟩
      | ok page =>
        simp only
        by_cases hz : (page.map (BlockAndIdToKey opts.BlockNumber)).length = 0
        · simp only [hz, if_true]
          exact ⟨_, 1, rfl, by omega⟩
        · simp only [hz, if_false]
          have hlen : (List.replicate keys.length "" ++
              page.map (BlockAndIdToKey opts.BlockNumber)).length =
              keys.length + (page.map (BlockAndIdToKey opts.BlockNumber)).length := by
            simp
          obtain ⟨res, n, hrec, hn⟩ := ih
            (List.replicate keys.length "" ++ page.map (BlockAndIdToKey opts.BlockNumber))
            (by rw [hlen]; omega)
          rw [hrec]
          refine ⟨res, n + 1, rfl, ?_⟩
          rw [hlen] at hn
          omega
    · simp only [h, if_false]
      exact ⟨_, 0, rfl, by omega⟩

/-- The 64-bit reading of a reported number that is not below `-2^63` does not
exceed the number, once negative values are counted as zero. -/
theorem bigInt64_le_max (N : Int) (h : -(2 ^ 63) ≤ N) : max (bigInt64 N) 0 ≤ max N 0 := by
  unfold bigInt64
  by_cases hneg : N < 0
  · have hlo : ((N.natAbs % 2 ^ 64 : Nat) : Int) = -N := by
      have : N.natAbs < 2 ^ 64 := by omega
      rw [Nat.mod_eq_of_lt this]
      omega
    simp only [hlo, hneg, if_true, neg_neg]
    have hm : N % 2 ^ 64 = N + 2 ^ 64 := by omega
    rw [hm]
    have hge : ¬ (N + 2 ^ 64 < 2 ^ 63) := by omega
    rw [if_neg hge]
    omega
  · simp only [hneg, if_false]
    have h0 : (0 : Int) ≤ ((N.natAbs % 2 ^ 64 : Nat) : Int) % 2 ^ 64 := by omega
    have hle : ((N.natAbs % 2 ^ 64 : Nat) : Int) % 2 ^ 64 ≤ N := by omega
    split <;> omega

/-- **C16.** For every registry behaviour, page size, call options and value
`numUpkeeps` of `NumUpkeeps.Int64()`:
* the paging loop, started as `GetActiveUpkeepKeys` starts it, ends, after at most
  `max numUpkeeps 0` page requests;
* at a page that comes back empty it stops at once and returns the keys collected so
  far, also when they are fewer than `numUpkeeps`;
* `GetActiveUpkeepKeys` returns for every block key;
* for a reported `NumUpkeeps` that is not below `-2^63`, `max (NumUpkeeps.Int64()) 0`
  is at most `max NumUpkeeps 0`. -/
theorem GetActiveUpkeepKeys_terminates (r : evmRegistryv2_0) (batchSize : Int)
    (opts : CallOpts) (numUpkeeps : Int) :
    (∃ res n,
      pageLoopCount r opts numUpkeeps batchSize numUpkeeps.toNat [] = some (res, n) ∧
      pageLoop r opts numUpkeeps batchSize numUpkeeps.toNat [] = some res ∧
      (n : Int) ≤ max numUpkeeps 0) ∧
    (∀ (fuel : Nat) (keys : List UpkeepKey), (keys.length : Int) < numUpkeeps →
      r.registry.GetActiveUpkeepIDs opts keys.length
        (if numUpkeeps - keys.length > batchSize then batchSize
          else numUpkeeps - keys.length) = .ok [] →
      pageLoopCount r opts numUpkeeps batchSize (fuel + 1) keys = some (.ok keys, 1) ∧
      pageLoop r opts numUpkeeps batchSize (fuel + 1) keys = some (.ok keys)) ∧
    (∀ block : BlockKey, ∃ res, GetActiveUpkeepKeysWith batchSize r block = some res) ∧
    (∀ N : Int, -(2 ^ 63) ≤ N → max (bigInt64 N) 0 ≤ max N 0) := by
  have hrun : ∀ (o : CallOpts) (m : Int), ∃ res n,
      pageLoopCount r o m batchSize m.toNat [] = some (res, n) ∧
      pageLoop r o m batchSize m.toNat [] = some res ∧ (n : Int) ≤ max m 0 := by
    intro o m
    obtain ⟨res, n, hc, hn⟩ := pageLoopCount_bound r o m batchSize m.toNat [] (by simp)
    refine ⟨res, n, hc, ?_, ?_⟩
    · rw [← pageLoopCount_fst, hc]
      rfl
    · simp only [List.length_nil, Nat.cast_zero, sub_zero] at hn
      omega
  refine ⟨hrun opts numUpkeeps, ?_, ?_, bigInt64_le_max⟩
  · intro fuel keys hlt hpage
    have hc : pageLoopCount r opts numUpkeeps batchSize (fuel + 1) keys = some (.ok keys, 1) := by
      conv => lhs; unfold pageLoopCount
      simp [hlt, hpage]
    refine ⟨hc, ?_⟩
    rw [← pageLoopCount_fst, hc]
    rfl
  · intro block
    unfold GetActiveUpkeepKeysWith
    cases buildCallOpts r block with
    | error e => exact ⟨_, rfl⟩
    | ok o =>
      simp only
      cases r.registry.GetState o with
      | error e => exact ⟨_, rfl⟩
      | ok N =>
        obtain ⟨res, _, _, hp, _⟩ := hrun o (bigInt64 N)
        exact ⟨res, hp⟩

/-- An instance of **C16**: a registry that reports 5 upkeeps and answers every page
request with an empty page; the loop stops at the first request with no key. -/
theorem GetActiveUpkeepKeys_terminates_witness :
    (∃ res n,
      pageLoopCount (fixedPageRegistry 5 []) ⟨1⟩ 5 2 (5 : Int).toNat [] = some (res, n) ∧
      pageLoop (fixedPageRegistry 5 []) ⟨1⟩ 5 2 (5 : Int).toNat [] = some res ∧
      (n : Int) ≤ max 5 0) ∧
    (pageLoopCount (fixedPageRegistry 5 []) ⟨1⟩ 5 2 (4 + 1) [] = some (.ok [], 1) ∧
      pageLoop (fixedPageRegistry 5 []) ⟨1⟩ 5 2 (4 + 1) [] = some (.ok [])) ∧
    max (bigInt64 5) 0 ≤ max 5 0 :=
  ⟨(GetActiveUpkeepKeys_terminates (fixedPageRegistry 5 []) 2 ⟨1⟩ 5).1,
    (GetActiveUpkeepKeys_terminates (fixedPageRegistry 5 []) 2 ⟨1⟩ 5).2.1 4 []
      (by decide) rfl,
    (GetActiveUpkeepKeys_terminates (fixedPageRegistry 5 []) 2 ⟨1⟩ 5).2.2.2 5 (by decide)⟩

/-! ## The registry client: transport failures, cancellation -/

/-- **C18** (what the code does instead).  With one key and a transport that fails,
* a failure of the first (check) round trip is returned as it is, and
* a failure of the header fetch for the block key "0" is wrapped with `%w` on the
  transport error and `%s` on `ErrRegistryCallFailure`;

neither error wraps `ErrRegistryCallFailure`.  Only a failure of the second (simulate
perform) round trip is returned as an error that wraps `ErrRegistryCallFailure`. -/
theorem CheckUpkeep_transport_errors :
    (CheckUpkeep (transportRegistry (.ok 1) (.error (.plain "connection refused")) (.ok []))
        ["1|1"] .resultOnly = some (none, some (.plain "connection refused")) ∧
      (GoError.plain "connection refused").Is .ErrRegistryCallFailure = false) ∧
    (CheckUpkeep (transportRegistry (.error (.plain "connection refused")) (.ok []) (.ok []))
        ["0|1"] .resultOnly =
      some (none, some (.wrap (.plain "connection refused")
        "connection refused: registry chain call failure: EVM failed to fetch block header")) ∧
      (GoError.wrap (.plain "connection refused")
        "connection refused: registry chain call failure: EVM failed to fetch block header").Is
          .ErrRegistryCallFailure = false) ∧
    (CheckUpkeep
        (transportRegistry (.ok 1) (.ok [.result "eligible"])
          (.error (.plain "connection refused"))) ["1|1"] .resultOnly =
      some (none, some (.wrap (.sentinel .ErrRegistryCallFailure)
        "registry chain call failure: simulate perform upkeep returned result: connection refused")) ∧
      (GoError.wrap (.sentinel .ErrRegistryCallFailure)
        "registry chain call failure: simulate perform upkeep returned result: connection refused").Is
          .ErrRegistryCallFailure = true) := by
  decide

/-- **C19** fails as stated.  One key whose check and simulated perform succeed; when
the `select` statement fires, the context is done and the worker's results are on the
channel, and the runtime picks the result case: `CheckUpkeep` returns the results and
no error, not the cancellation error. -/
theorem CheckUpkeep_select_counterexample :
    CheckUpkeep (scriptedRegistry [.result "eligible"] [.result "true"]) ["1|1"]
        (.both true) =
      some (some [{ UpkeepResult.zero with Key := "1|1", State := .Eligible }], none) := by
  decide

/-- **C19**, amended.  When the context is done at the moment `CheckUpkeep` waits for
an outcome: if the worker has delivered nothing, or the `select` statement takes the
case of the done context, `CheckUpkeep` returns no results and the error that wraps
`ErrContextCancelled`; if the worker's outcome is there too and the `select` statement
takes it, `CheckUpkeep` returns what it returns when only the worker's outcome is
there. -/
theorem CheckUpkeep_select_done (r : evmRegistryv2_0) (keys : List UpkeepKey) :
    CheckUpkeep r keys .doneOnly = some (none, some cancelledError) ∧
    CheckUpkeep r keys (.both false) = some (none, some cancelledError) ∧
    CheckUpkeep r keys (.both true) = CheckUpkeep r keys .resultOnly ∧
    cancelledError.Is .ErrContextCancelled = true :=
  ⟨rfl, rfl, rfl, rfl⟩

/-! ## The reporting plugin factory: theorems -/

/-- **C20.** For every factory and every reporting-plugin config, the plugin info that
`NewReportingPlugin` returns has `MaxQueryLength = 0`, `MaxObservationLength = 1000`,
`MaxReportLength = 10000` and `UniqueReports = true`, whether `sampleFromProbability`
fails (an error and no plugin are returned) or not. -/
theorem NewReportingPlugin_info (d : keepersReportingFactory) (c : ReportingPluginConfig) :
    (NewReportingPlugin d c).2.1.Limits.MaxQueryLength = 0 ∧
    (NewReportingPlugin d c).2.1.Limits.MaxObservationLength = 1000 ∧
    (NewReportingPlugin d c).2.1.Limits.MaxReportLength = 10000 ∧
    (NewReportingPlugin d c).2.1.UniqueReports = true ∧
    ((NewReportingPlugin d c).2.2 = none ↔ (NewReportingPlugin d c).1 ≠ none) := by
  unfold NewReportingPlugin
  cases d.sampleFromProbability 1 (c.N - c.F) (99999 / 100000) with
  | error e => simp
  | ok sample => simp

/-! ## The registry client: call options, result order, result slots -/

/-- The 64-bit reading of a big integer is zero exactly when the low 64 bits of its
magnitude are zero. -/
theorem bigInt64_eq_zero_iff (b : Int) : bigInt64 b = 0 ↔ b.natAbs % 2 ^ 64 = 0 := by
  unfold bigInt64
  have hlt : b.natAbs % 2 ^ 64 < 2 ^ 64 := Nat.mod_lt _ (by norm_num)
  generalize b.natAbs % 2 ^ 64 = lo at hlt
  constructor
  · intro h
    by_cases hneg : b < 0
    · simp only [hneg, if_true] at h
      split at h <;> omega
    · simp only [hneg, if_false] at h
      split at h <;> omega
  · intro h
    subst h
    simp

/-- What `buildCallOpts` does on every block key: a key that reads as an integer whose
low 64 bits are not all zero gives that integer; a key that reads as an integer whose
low 64 bits are zero gives the number of the latest header, or the wrapped error of
the header fetch; a key that does not read as an integer gives an error that wraps
`ErrBlockKeyNotParsable`. -/
theorem buildCallOpts_spec (r : evmRegistryv2_0) (block : BlockKey) :
    (∀ b : Int, SetString block = some b → b.natAbs % 2 ^ 64 ≠ 0 →
      buildCallOpts r block = .ok { BlockNumber := b }) ∧
    (∀ b number : Int, SetString block = some b → b.natAbs % 2 ^ 64 = 0 →
      r.client.HeaderByNumber = .ok number →
      buildCallOpts r block = .ok { BlockNumber := number }) ∧
    (SetString block = none →
      ∃ e, buildCallOpts r block = .error e ∧ e.Is .ErrBlockKeyNotParsable = true) := by
  refine ⟨?_, ?_, ?_⟩
  · intro b hb hne
    have h64 : ¬ bigInt64 b = 0 := fun h => hne ((bigInt64_eq_zero_iff b).mp h)
    simp [buildCallOpts, hb, h64]
  · intro b number hb hz hhead
    have h64 : bigInt64 b = 0 := (bigInt64_eq_zero_iff b).mpr hz
    simp [buildCallOpts, hb, h64, hhead]
  · intro hnone
    refine ⟨.wrap (.sentinel .ErrBlockKeyNotParsable)
      (Sentinel.ErrBlockKeyNotParsable.text ++ ": requires big int"), ?_, rfl⟩
    simp [buildCallOpts, hnone]

/-- **C21** (what the code does instead).  The block key "18446744073709551616" is the
non-zero decimal integer `2^64`.  Its `Int64()` is zero, so `buildCallOpts` takes it
for the zero block key, fetches the latest header (number 7 here) and returns call
options with the block number 7 instead of `2^64`.  The block key "5" gives 5, the
block key "0" gives 7, and the block key "latest" gives an error that wraps
`ErrBlockKeyNotParsable`. -/
theorem buildCallOpts_low_bits_zero :
    SetString "18446744073709551616" = some (2 ^ 64) ∧
    buildCallOpts (transportRegistry (.ok 7) (.ok []) (.ok [])) "18446744073709551616" =
      .ok { BlockNumber := 7 } ∧
    buildCallOpts (transportRegistry (.ok 7) (.ok []) (.ok [])) "5" =
      .ok { BlockNumber := 5 } ∧
    buildCallOpts (transportRegistry (.ok 7) (.ok []) (.ok [])) "0" =
      .ok { BlockNumber := 7 } ∧
    buildCallOpts (transportRegistry (.ok 7) (.ok []) (.ok [])) "latest" =
      .error (.wrap (.sentinel .ErrBlockKeyNotParsable)
        "block identifier not parsable: requires big int") := by
  decide

theorem buildPerformReq_decoded (r : evmRegistryv2_0) (key : UpkeepKey) (s : String)
    (res : UpkeepResult) (req : BatchElem) (h : buildPerformReq r key s = .ok (res, req)) :
    r.abi.unmarshalCheckUpkeepResult key s = .ok res := by
  unfold buildPerformReq at h
  cases hd : r.abi.unmarshalCheckUpkeepResult key s with
  | error e => simp [hd] at h
  | ok result =>
    simp only [hd] at h
    split at h
    · exact absurd h (by simp)
    · split at h
      · exact absurd h (by simp)
      · split at h
        · exact absurd h (by simp)
        · simp only [Except.ok.injEq, Prod.mk.injEq] at h
          rw [h.1]

theorem applySimulation_Key (b : Bool) (result : UpkeepResult) :
    (applySimulation b result).Key = result.Key := by
  cases b <;> rfl

/-- **C23** fails as stated.  Two keys, with a decoder that stamps the key it is passed
on the result; the check of the first key reverts.  `CheckUpkeep` returns two results
and no error, and the first result is the zero value, with the empty key, not the key
"1|1". -/
theorem CheckUpkeep_order_counterexample :
    (∀ (key : UpkeepKey) (s : String) (res : UpkeepResult),
      scriptedCodec.unmarshalCheckUpkeepResult key s = .ok res → res.Key = key) ∧
    CheckUpkeep
        (scriptedRegistry [.error (.plain "execution reverted"), .result "eligible"]
          [.error (.plain "execution reverted"), .result "true"]) ["1|1", "1|2"]
        .resultOnly =
      some (some [UpkeepResult.zero,
        { UpkeepResult.zero with Key := "1|2", State := .Eligible }], none) ∧
    UpkeepResult.zero.Key ≠ "1|1" := by
  refine ⟨?_, by decide, by decide⟩
  intro key s res h
  unfold scriptedCodec at h
  simp only at h
  split at h
  · exact absurd h (by simp)
  · simp only [Except.ok.injEq] at h
    rw [← h]

/-- **C23**, amended.  Whenever `CheckUpkeep` returns results without error, with a
decoder that stamps the key it is passed on the result, there is one result per key,
in key order, and for the result at every position `i`:
* if neither the check response nor the simulate-perform response at `i` carries an
  error, the result carries the key at `i`;
* if the check response or the simulate-perform response at `i` carries an error (a
  revert, since no other error lets `CheckUpkeep` return results), the result is the
  zero value, which carries the empty key and the state `NotEligible`. -/
theorem CheckUpkeep_results_in_key_order (r : evmRegistryv2_0) (keys : List UpkeepKey)
    (sel : SelectReady) (ur : List UpkeepResult)
    (h : CheckUpkeep r keys sel = some (some ur, none))
    (hstamp : ∀ (key : UpkeepKey) (s : String) (res : UpkeepResult),
      r.abi.unmarshalCheckUpkeepResult key s = .ok res → res.Key = key) :
    ∃ cresps presps,
      checkResponses r keys = some cresps ∧ performResponses r keys = some presps ∧
      ur.length = keys.length ∧
      ∀ (i : Nat) (key : UpkeepKey) (res : UpkeepResult),
        keys[i]? = some key → ur[i]? = some res →
        ((∃ s p, respAt cresps i = .result s ∧ respAt presps i = .result p) →
          res.Key = key) ∧
        (((∃ e, respAt cresps i = .error e) ∨ (∃ e, respAt presps i = .error e)) →
          res = UpkeepResult.zero) := by
  have hcheck := CheckUpkeep_results_inv r keys sel ur h
  obtain ⟨cresps, presps, preqs, results, hcr, hpr, hcl, hpl⟩ := check_ok_inv r keys ur hcheck
  obtain ⟨hlreq, _, hcpt⟩ := checkLoop_spec r keys cresps none none preqs results hcl
  obtain ⟨hlur, hppt⟩ := performLoop_spec r preqs results presps none none ur hpl
  refine ⟨cresps, presps, hcr, hpr, by rw [hlur, hlreq], ?_⟩
  intro i key res hkey hres
  have hik : i < keys.length := (List.getElem?_eq_some_iff.mp hkey).1
  obtain ⟨hperr, hpres⟩ := hppt i (by omega)
  obtain ⟨hcerr, hcres⟩ := hcpt i key hkey
  have hzero_of_perr : ∀ e, respAt presps i = .error e → res = UpkeepResult.zero := by
    intro e he
    have hz := hperr e he
    rw [hres] at hz
    exact Option.some.inj hz
  constructor
  · rintro ⟨s, p, hs, hp⟩
    obtain ⟨res0, req0, hbuild, _, hres0⟩ := hcres s hs
    obtain ⟨_, b, _, _, hu⟩ := hpres p hp
    rw [hres] at hu
    have hget : results.getD i UpkeepResult.zero = res0 := by
      simp [List.getD, hres0]
    rw [hget] at hu
    rw [Option.some.inj hu, applySimulation_Key]
    exact hstamp key s res0 (buildPerformReq_decoded r key s res0 req0 hbuild)
  · rintro (⟨e, he⟩ | ⟨e, he⟩)
    · cases hp : respAt presps i with
      | error e1 => exact hzero_of_perr e1 hp
      | result p =>
        obtain ⟨req, _, hreq, _, _⟩ := hpres p hp
        have := (hcerr e he).1
        rw [hreq] at this
        exact absurd this (by simp)
    · exact hzero_of_perr e he

/-- An instance of **C23**, amended: the batch of the counterexample. -/
theorem CheckUpkeep_results_in_key_order_witness :
    ∃ cresps presps,
      checkResponses
          (scriptedRegistry [.error (.plain "execution reverted"), .result "eligible"]
            [.error (.plain "execution reverted"), .result "true"]) ["1|1", "1|2"] =
        some cresps ∧
      performResponses
          (scriptedRegistry [.error (.plain "execution reverted"), .result "eligible"]
            [.error (.plain "execution reverted"), .result "true"]) ["1|1", "1|2"] =
        some presps ∧
      [UpkeepResult.zero,
        { UpkeepResult.zero with Key := "1|2", State := .Eligible }].length =
        ["1|1", "1|2"].length ∧
      ∀ (i : Nat) (key : UpkeepKey) (res : UpkeepResult),
        ["1|1", "1|2"][i]? = some key →
        [UpkeepResult.zero,
          { UpkeepResult.zero with Key := "1|2", State := .Eligible }][i]? = some res →
        ((∃ s p, respAt cresps i = .result s ∧ respAt presps i = .result p) →
          res.Key = key) ∧
        (((∃ e, respAt cresps i = .error e) ∨ (∃ e, respAt presps i = .error e)) →
          res = UpkeepResult.zero) :=
  CheckUpkeep_results_in_key_order
    (scriptedRegistry [.error (.plain "execution reverted"), .result "eligible"]
      [.error (.plain "execution reverted"), .result "true"]) ["1|1", "1|2"] .resultOnly
    [UpkeepResult.zero, { UpkeepResult.zero with Key := "1|2", State := .Eligible }]
    (by decide)
    (by
      intro key s res h
      unfold scriptedRegistry scriptedCodec at h
      simp only at h
      split at h
      · exact absurd h (by simp)
      · simp only [Except.ok.injEq] at h
        rw [← h])

/-- **C24** (what the code does instead).  One key whose check reverts: the check-phase
loop builds no simulate-perform request for position 0, so `performReqs[0]` is the zero
element and `performResults[0]` is nil.  The client leaves that element untouched, its
`Error` is nil, and the perform-phase loop reads `*performResults[0]`: the worker
panics, and `CheckUpkeep`, waiting for the worker, gets no outcome. -/
theorem check_reads_missing_slot :
    checkResponses (scriptedRegistry [.error (.plain "execution reverted")] []) ["1|1"] =
      some [.error (.plain "execution reverted")] ∧
    checkLoop (scriptedRegistry [.error (.plain "execution reverted")] []) ["1|1"]
        [.error (.plain "execution reverted")] none =
      .ok (none, [none], [UpkeepResult.zero]) ∧
    performResponses (scriptedRegistry [.error (.plain "execution reverted")] []) ["1|1"] =
      some [] ∧
    respAt [] 0 = .result "" ∧
    performLoop (scriptedRegistry [.error (.plain "execution reverted")] []) [none]
        [UpkeepResult.zero] [] none = .panic ∧
    check (scriptedRegistry [.error (.plain "execution reverted")] []) ["1|1"] = .panic ∧
    CheckUpkeep (scriptedRegistry [.error (.plain "execution reverted")] []) ["1|1"]
      .resultOnly = none := by
  decide

/-! ## The simulated registry: theorems -/

/-- A value in the non-negative 64-bit range is not changed by 64-bit arithmetic. -/
theorem wrapInt64_of_range (x : Int) (h0 : 0 ≤ x) (h1 : x < 2 ^ 63) : wrapInt64 x = x := by
  unfold wrapInt64
  have hm : x % 2 ^ 64 = x := Int.emod_eq_of_lt h0 (by omega)
  simp only [hm]
  rw [if_pos h1]

/-- The inner loop, given enough fuel and a bound below the largest 64-bit integer,
ends, and finds a perform log exactly when one is recorded under a block of the range
it was asked to visit. -/
theorem performScan_spec (performs : GoMap String PerformLog) (e diff : Int)
    (hdiff : diff < 2 ^ 63 - 1) (fuel : Nat) : ∀ i : Int, 0 ≤ i → i ≤ diff + 1 →
    diff + 1 - i < fuel →
    ∃ b, performScan performs e diff fuel i = some b ∧
      (b = true ↔ ∃ c : Int, i ≤ c ∧ c ≤ diff ∧
        (performs.lookup (bigString (e + c))).isSome = true) := by
  induction fuel with
  | zero => intro i h0 h1 hf; omega
  | succ f ih =>
    intro i h0 h1 hf
    unfold performScan
    by_cases hle : i ≤ diff
    · simp only [hle, if_true]
      by_cases hfound : (performs.lookup (bigString (e + i))).isSome = true
      · simp only [hfound, if_true]
        exact ⟨true, rfl, by simp only [true_iff]; exact ⟨i, le_refl _, hle, hfound⟩⟩
      · simp only [hfound]
        rw [wrapInt64_of_range (i + 1) (by omega) (by omega)]
        obtain ⟨b, hb, hiff⟩ := ih (i + 1) (by omega) (by omega) (by omega)
        refine ⟨b, hb, ?_⟩
        rw [hiff]
        constructor
        · rintro ⟨c, hc1, hc2, hc3⟩
          exact ⟨c, by omega, hc2, hc3⟩
        · rintro ⟨c, hc1, hc2, hc3⟩
          have hne : c ≠ i := by
            intro heq
            subst heq
            exact hfound hc3
          exact ⟨c, by omega, hc2, hc3⟩
    · simp only [hle, if_false]
      refine ⟨false, rfl, ?_⟩
      constructor
      · intro h; exact absurd h (by simp)
      · rintro ⟨c, hc1, hc2, _⟩
        omega

/-- The outer loop passes over eligibility points above `block`. -/
theorem eligibleScan_skip (block : Int) (performs : GoMap String PerformLog) (fuel : Nat)
    (xs ys : List Int) (h : ∀ x ∈ xs, ¬ x ≤ block) :
    eligibleScan block performs fuel (xs ++ ys) = eligibleScan block performs fuel ys := by
  induction xs with
  | nil => rfl
  | cons a as ih =>
    have ha : ¬ block ≥ a := h a (List.mem_cons_self _ _)
    simp only [List.cons_append, eligibleScan, ha, if_false]
    exact ih (fun x hx => h x (List.mem_cons_of_mem _ hx))

/-- Every list either has no element at or below `block`, or splits at its first such
element. -/
theorem first_le_split (block : Int) : ∀ R : List Int,
    (∀ x ∈ R, ¬ x ≤ block) ∨
    ∃ xs e ys, R = xs ++ e :: ys ∧ (∀ x ∈ xs, ¬ x ≤ block) ∧ e ≤ block := by
  intro R
  induction R with
  | nil => exact Or.inl (fun x hx => absurd hx (by simp))
  | cons a R ih =>
    by_cases ha : a ≤ block
    · exact Or.inr ⟨[], a, R, rfl, fun x hx => absurd hx (by simp), ha⟩
    · rcases ih with hall | ⟨xs, e, ys, hR, hxs, he⟩
      · left
        intro x hx
        rcases List.mem_cons.mp hx with h | h
        · rw [h]; exact ha
        · exact hall x h
      · right
        refine ⟨a :: xs, e, ys, by rw [hR]; rfl, ?_, he⟩
        intro x hx
        rcases List.mem_cons.mp hx with h | h
        · rw [h]; exact ha
        · exact hxs x h

/-- The greatest index with an eligibility point at or below `block` is the position
of the first such point that the loop meets going down from the last index. -/
theorem greatest_index_iff (block : Int) (L xs ys : List Int) (e : Int) (P : Int → Prop)
    (hR : L.reverse = xs ++ e :: ys) (hxs : ∀ x ∈ xs, ¬ x ≤ block) (he : e ≤ block) :
    (∃ (j : Nat) (e0 : Int), L[j]? = some e0 ∧ e0 ≤ block ∧
      (∀ (j1 : Nat) (e1 : Int), j < j1 → L[j1]? = some e1 → ¬ e1 ≤ block) ∧ P e0) ↔ P e := by
  have hL : L = ys.reverse ++ e :: xs.reverse := by
    have := congrArg List.reverse hR
    simpa using this
  have hlen : ys.reverse.length = ys.length := List.length_reverse ys
  have hat : L[ys.length]? = some e := by
    rw [hL, List.getElem?_append_right (by omega), hlen]
    simp
  have habove : ∀ (j1 : Nat) (e1 : Int), ys.length < j1 → L[j1]? = some e1 → ¬ e1 ≤ block := by
    intro j1 e1 hj h1
    rw [hL, List.getElem?_append_right (by omega), hlen] at h1
    obtain ⟨k, hk⟩ : ∃ k, j1 - ys.length = k + 1 := ⟨j1 - ys.length - 1, by omega⟩
    rw [hk, List.getElem?_cons_succ] at h1
    have hmem : e1 ∈ xs.reverse := List.getElem?_mem h1
    exact hxs e1 (List.mem_reverse.mp hmem)
  constructor
  · rintro ⟨j, e0, hj, he0, hmax, hP⟩
    rcases Nat.lt_trichotomy j ys.length with hlt | heq | hgt
    · exact absurd he (hmax ys.length e hlt hat)
    · subst heq
      rw [hat] at hj
      cases hj
      exact hP
    · exact absurd he0 (habove j e0 hgt hj)
  · intro hP
    exact ⟨ys.length, e, hat, he, habove, hP⟩

/-- What the outer loop returns, in the words of the claim. -/
theorem eligibleScan_spec (up : SimulatedUpkeep) (block : Int) (fuel : Nat)
    (hrange : ∀ e ∈ up.EligibleAt, e ≤ block → block - e < 2 ^ 63 - 1)
    (hfuel : ∀ e ∈ up.EligibleAt, e ≤ block → block - e + 1 < fuel) :
    ∃ ok state,
      eligibleScan block up.Performs fuel up.EligibleAt.reverse = some (ok, state) ∧
      (state = .Eligible ↔ EligibleBySpec up block) ∧
      (state = .NotEligible ↔ ¬ EligibleBySpec up block) ∧
      (ok = true ↔ state = .Eligible) := by
  rcases first_le_split block up.EligibleAt.reverse with hall | ⟨xs, e, ys, hR, hxs, he⟩
  · have hscan : eligibleScan block up.Performs fuel up.EligibleAt.reverse =
        some (false, .NotEligible) := by
      have := eligibleScan_skip block up.Performs fuel up.EligibleAt.reverse [] hall
      rw [List.append_nil] at this
      rw [this]
      rfl
    have hnot : ¬ EligibleBySpec up block := by
      rintro ⟨j, e0, hj, he0, _, _⟩
      exact hall e0 (List.mem_reverse.mpr (List.getElem?_mem hj)) he0
    refine ⟨false, .NotEligible, hscan, ?_, ?_, ?_⟩
    · simp [hnot]
    · simp [hnot]
    · simp
  · have hmem : e ∈ up.EligibleAt := by
      have : e ∈ up.EligibleAt.reverse := by rw [hR]; simp
      exact List.mem_reverse.mp this
    have hd0 : 0 ≤ block - e := by omega
    have hd1 : block - e < 2 ^ 63 - 1 := hrange e hmem he
    have h64 : bigInt64 (block - e) = block - e :=
      bigInt64_of_nonneg_lt _ hd0 (by omega)
    obtain ⟨b, hb, hiff⟩ := performScan_spec up.Performs e (block - e) hd1 fuel 0
      (le_refl _) (by omega) (by have := hfuel e hmem he; omega)
    have hspec : EligibleBySpec up block ↔
        ∀ c : Int, e ≤ c → c ≤ block → up.Performs.lookup (bigString c) = none :=
      greatest_index_iff block up.EligibleAt xs ys e
        (fun e0 => ∀ c : Int, e0 ≤ c → c ≤ block → up.Performs.lookup (bigString c) = none)
        hR hxs he
    have hfound : b = true ↔ ¬ EligibleBySpec up block := by
      rw [hiff, hspec]
      constructor
      · rintro ⟨c, hc0, hc1, hc2⟩ hnone
        have := hnone (e + c) (by omega) (by omega)
        rw [this] at hc2
        exact absurd hc2 (by simp)
      · intro hnot
        by_contra hno
        apply hnot
        intro c hc0 hc1
        by_contra hsome
        apply hno
        refine ⟨c - e, by omega, by omega, ?_⟩
        have hce : e + (c - e) = c := by omega
        rw [hce]
        cases hl : up.Performs.lookup (bigString c) with
        | none => exact absurd hl hsome
        | some v => rfl
    have hscan : eligibleScan block up.Performs fuel up.EligibleAt.reverse =
        (match b with
          | true => some (false, UpkeepState.NotEligible)
          | false => some (true, UpkeepState.Eligible)) := by
      rw [hR, eligibleScan_skip block up.Performs fuel xs (e :: ys) hxs]
      have hge : block ≥ e := he
      simp only [eligibleScan, hge, if_true, h64, hb]
      cases b <;> rfl
    cases b with
    | true =>
      have hnot : ¬ EligibleBySpec up block := hfound.mp rfl
      refine ⟨false, .NotEligible, hscan, ?_, ?_, ?_⟩
      · simp [hnot]
      · simp [hnot]
      · simp
    | false =>
      have hyes : EligibleBySpec up block := by
        by_contra hnot
        have := hfound.mpr hnot
        exact absurd this (by simp)
      refine ⟨true, .Eligible, hscan, ?_, ?_, ?_⟩
      · simp [hyes]
      · simp [hyes]
      · simp

theorem stringsSplit_simulated_key (block : Int) (idText : String)
    (hsep : separatorChar ∉ idText.toList) :
    stringsSplit (bigString block ++ separator ++ idText) = [bigString block, idText] := by
  have hkey : (bigString block ++ separator ++ idText).toList =
      (bigString block).toList ++ separatorChar :: idText.toList := by
    simp [separator, String.singleton]
  unfold stringsSplit
  rw [hkey, splitChars_append _ _ _ (separator_not_mem_bigString block),
    splitChars_of_not_mem _ _ hsep]
  simp

/-- **C22** fails as stated.  The upkeep "7" is eligible at block 0 and has a perform
log at block 1; the key is the one of block `2^64`.  The greatest index with an
eligibility point at or below the block is 0, and block 1 lies in the closed range from
0 to `2^64`, so the upkeep is not eligible in the words of the claim.  The loop bound
`diff` is `(block - e).Int64()`, which is 0 here: the loop visits block 0 only, and
`CheckUpkeep` returns `true` and the state `Eligible`. -/
theorem SimulatedContract_CheckUpkeep_counterexample :
    BlockAndIdToKey (2 ^ 64) 7 = "18446744073709551616|7" ∧
    (simulatedContractOf [0] [1]).upkeeps.lookup "7" = some (simulatedUpkeepOf [0] [1]) ∧
    ¬ EligibleBySpec (simulatedUpkeepOf [0] [1]) (2 ^ 64) ∧
    (simulatedContractOf [0] [1]).CheckUpkeep .timerFired 5 "18446744073709551616|7" =
      .returned (true,
        { Key := "18446744073709551616|7", State := .Eligible, GasUsed := some 0,
          PerformData := [], FastGasWei := some 0, LinkNative := some 0,
          CheckBlockNumber := 4294967295, CheckBlockHash := 0 }, none) := by
  refine ⟨by decide, AList.lookup_insert _, ?_, by decide⟩
  rintro ⟨j, e, hj, _, _, hnone⟩
  cases j with
  | succ k => simp [simulatedUpkeepOf] at hj
  | zero =>
    have he : e = 0 := by simpa [simulatedUpkeepOf] using hj.symm
    subst he
    have h1 := hnone 1 (by norm_num) (by norm_num)
    have h2 : (simulatedUpkeepOf [0] [1]).Performs.lookup (bigString 1) ≠ none := by decide
    exact h2 h1

/-- **C22**, amended.  For every simulated contract with a positive average latency,
every upkeep registered under an id text without separator, and every block such that
`block - e` is below `2^63 - 1` for each eligibility point `e` at or below the block:
on the key of the block and the upkeep, once the latency wait ends with the timer and
with fuel for `block - e + 2` turns of the inner loop, `CheckUpkeep` returns without
error a result that carries the key; its state is `Eligible` exactly when the upkeep is
eligible in the words of the claim and `NotEligible` otherwise; and the boolean
returned is true exactly when the state is `Eligible`. -/
theorem SimulatedContract_CheckUpkeep_spec (ct : SimulatedContract) (fuel : Nat)
    (up : SimulatedUpkeep) (block : Int) (idText : String)
    (hlat : 0 < ct.avgLatency) (hsep : separatorChar ∉ idText.toList)
    (hup : ct.upkeeps.lookup idText = some up)
    (hrange : ∀ e ∈ up.EligibleAt, e ≤ block → block - e < 2 ^ 63 - 1)
    (hfuel : ∀ e ∈ up.EligibleAt, e ≤ block → block - e + 1 < fuel) :
    ∃ ok r,
      ct.CheckUpkeep .timerFired fuel (bigString block ++ separator ++ idText) =
        .returned (ok, r, none) ∧
      r.Key = bigString block ++ separator ++ idText ∧
      (r.State = .Eligible ↔ EligibleBySpec up block) ∧
      (r.State = .NotEligible ↔ ¬ EligibleBySpec up block) ∧
      (ok = true ↔ r.State = .Eligible) := by
  obtain ⟨ok, state, hscan, h1, h2, h3⟩ := eligibleScan_spec up block fuel hrange hfuel
  have hnot : ¬ ct.avgLatency ≤ 0 := by omega
  refine ⟨ok,
    { Key := bigString block ++ separator ++ idText
      State := state
      GasUsed := some 0
      PerformData := []
      FastGasWei := some 0
      LinkNative := some 0
      CheckBlockNumber := ((bigInt64 block - 1) % 2 ^ 32).toNat
      CheckBlockHash := 0 }, ?_, ?_, ?_, ?_, ?_⟩
  · unfold SimulatedContract.CheckUpkeep
    simp only [hnot, if_false, stringsSplit_simulated_key block idText hsep,
      SetString_bigString, hup, hscan]
  · rfl
  · exact h1
  · exact h2
  · exact h3

/-- An instance of **C22**, amended: the upkeep "7", eligible at the blocks 3 and 10
with a perform log at block 5, at block 12. -/
theorem SimulatedContract_CheckUpkeep_spec_witness :
    ∃ ok r,
      (simulatedContractOf [3, 10] [5]).CheckUpkeep .timerFired 20
          (bigString 12 ++ separator ++ "7") = .returned (ok, r, none) ∧
      r.Key = bigString 12 ++ separator ++ "7" ∧
      (r.State = .Eligible ↔ EligibleBySpec (simulatedUpkeepOf [3, 10] [5]) 12) ∧
      (r.State = .NotEligible ↔ ¬ EligibleBySpec (simulatedUpkeepOf [3, 10] [5]) 12) ∧
      (ok = true ↔ r.State = .Eligible) :=
  SimulatedContract_CheckUpkeep_spec (simulatedContractOf [3, 10] [5]) 20
    (simulatedUpkeepOf [3, 10] [5]) 12 "7" (by decide) (by decide) (AList.lookup_insert _)
    (by
      intro e he _
      simp only [simulatedUpkeepOf, List.mem_cons, List.mem_singleton, List.not_mem_nil,
        or_false] at he
      rcases he with h | h <;> subst h <;> norm_num)
    (by
      intro e he _
      simp only [simulatedUpkeepOf, List.mem_cons, List.mem_singleton, List.not_mem_nil,
        or_false] at he
      rcases he with h | h <;> subst h <;> norm_num)

/-! ## The simulated database: theorems -/

open SimulatedDatabase

theorem foldl_erase_lookup {κ ν : Type} [DecidableEq κ] (keys : List κ) :
    ∀ (m : GoMap κ ν) (k : κ),
      (keys.foldl (fun m key => m.erase key) m).lookup k =
        if k ∈ keys then none else m.lookup k := by
  induction keys with
  | nil => intro m k; simp
  | cons a as ih =>
    intro m k
    simp only [List.foldl_cons, ih, List.mem_cons]
    by_cases hka : k = a
    · subst hka
      simp
    · by_cases hmem : k ∈ as
      · simp [hmem]
      · simp [hmem, hka, AList.lookup_erase_ne hka]

/-- No call of the store writes the secondary index. -/
theorem apply_transmitDigestLookup (d : SimulatedDatabase) (c : StoreCall) :
    (c.apply d).transmitDigestLookup = d.transmitDigestLookup := by
  cases c <;> rfl

theorem runCalls_transmitDigestLookup (calls : List StoreCall) :
    ∀ d : SimulatedDatabase, (runCalls d calls).transmitDigestLookup = d.transmitDigestLookup := by
  induction calls with
  | nil => intro d; rfl
  | cons c cs ih =>
    intro d
    show (runCalls (c.apply d) cs).transmitDigestLookup = d.transmitDigestLookup
    rw [ih, apply_transmitDigestLookup]

/-- **C6** (what the code does instead).  On a store built by `NewSimulatedDatabase`
and any sequence of calls, after `StorePendingTransmission ts tr` the call
`PendingTransmissionsWithConfigDigest ts.ConfigDigest` returns the empty map, which has
no entry for `ts`: nothing ever writes the digest index the lookup starts from. -/
theorem PendingTransmissionsWithConfigDigest_after_store (calls : List StoreCall)
    (ts : ReportTimestamp) (tr : PendingTransmission) :
    (PendingTransmissionsWithConfigDigest
        (StorePendingTransmission (runCalls NewSimulatedDatabase calls) ts tr).1
        ts.ConfigDigest).1 = ∅ ∧
    (PendingTransmissionsWithConfigDigest
        (StorePendingTransmission (runCalls NewSimulatedDatabase calls) ts tr).1
        ts.ConfigDigest).1.lookup ts = none := by
  have hidx : (StorePendingTransmission (runCalls NewSimulatedDatabase calls) ts tr).1.transmitDigestLookup
      = ∅ := by
    show (runCalls NewSimulatedDatabase calls).transmitDigestLookup = ∅
    rw [runCalls_transmitDigestLookup]
    rfl
  have hempty : (PendingTransmissionsWithConfigDigest
      (StorePendingTransmission (runCalls NewSimulatedDatabase calls) ts tr).1
      ts.ConfigDigest).1 = ∅ := by
    simp only [PendingTransmissionsWithConfigDigest, hidx, AList.lookup_empty]
  exact ⟨hempty, by rw [hempty]; exact AList.lookup_empty ts⟩

/-- **C7.** After `DeletePendingTransmissionsOlderThan t` the primary map holds exactly
the records it held before whose `Time` is not before `t`: `ts` is mapped to `v`
afterwards if and only if it was mapped to `v` before and `t ≤ v.Time`.  So every
retained record has `Time ≥ t` and is unchanged, and every removed record had
`Time < t`. -/
theorem DeletePendingTransmissionsOlderThan_lookup (d : SimulatedDatabase) (t : Int)
    (ts : ReportTimestamp) (v : PendingTransmission) :
    (d.DeletePendingTransmissionsOlderThan t).1.pendingTransmit.lookup ts = some v ↔
      d.pendingTransmit.lookup ts = some v ∧ t ≤ v.Time := by
  simp only [DeletePendingTransmissionsOlderThan, foldl_erase_lookup]
  constructor
  · intro h
    split at h
    · exact absurd h (by simp)
    · next hnot =>
      refine ⟨h, ?_⟩
      by_contra hlt
      apply hnot
      have hmem : (⟨ts, v⟩ : Sigma fun _ : ReportTimestamp => PendingTransmission) ∈
          d.pendingTransmit.entries := AList.mem_lookup_iff.mp h
      exact List.mem_map.mpr ⟨⟨ts, v⟩, List.mem_filter.mpr ⟨hmem, by simpa using hlt⟩, rfl⟩
  · rintro ⟨h, hle⟩
    have hnot : ts ∉ (d.pendingTransmit.entries.filter
        (fun kv => decide (kv.2.Time < t))).map (fun kv => kv.1) := by
      intro hmem
      obtain ⟨⟨k, w⟩, hkw, hk⟩ := List.mem_map.mp hmem
      obtain ⟨hin, hlt⟩ := List.mem_filter.mp hkw
      simp only at hk
      subst hk
      have hw : d.pendingTransmit.lookup k = some w := AList.mem_lookup_iff.mpr hin
      rw [h] at hw
      cases hw
      have : v.Time < t := by simpa using hlt
      omega
    rw [if_neg hnot]
    exact h

theorem apply_config_of_not_WriteConfig (d : SimulatedDatabase) (c : StoreCall)
    (h : c.isWriteConfig = false) : (c.apply d).config = d.config := by
  cases c <;> first | rfl | simp [StoreCall.isWriteConfig] at h

theorem runCalls_config_of_no_WriteConfig (calls : List StoreCall) :
    ∀ d : SimulatedDatabase, (∀ c ∈ calls, c.isWriteConfig = false) →
      (runCalls d calls).config = d.config := by
  induction calls with
  | nil => intro d _; rfl
  | cons c cs ih =>
    intro d h
    show (runCalls (c.apply d) cs).config = d.config
    rw [ih _ (fun c' hc' => h c' (List.mem_cons_of_mem _ hc')),
      apply_config_of_not_WriteConfig d c (h c (List.mem_cons_self _ _))]

theorem runCalls_append (d : SimulatedDatabase) (xs ys : List StoreCall) :
    runCalls d (xs ++ ys) = runCalls (runCalls d xs) ys := by
  simp [runCalls, List.foldl_append]

/-- **C10.** `ReadConfig` on a store on which `WriteConfig` was never called (a new
store after any calls other than `WriteConfig`) fails with the error "not found"; and
on any store, after any calls the last `WriteConfig` of which wrote `config` (whatever
other calls come before or after it, in particular after any sequence of `WriteConfig`
calls ending with `config`), `ReadConfig` succeeds and returns `config`. -/
theorem ReadConfig_spec :
    (∀ calls : List StoreCall, (∀ c ∈ calls, c.isWriteConfig = false) →
      (runCalls NewSimulatedDatabase calls).ReadConfig = .error (.plain "not found")) ∧
    (∀ (d : SimulatedDatabase) (before after : List StoreCall) (config : ContractConfig),
      (∀ c ∈ after, c.isWriteConfig = false) →
      (runCalls d (before ++ [StoreCall.WriteConfig config] ++ after)).ReadConfig =
        .ok config) := by
  constructor
  · intro calls h
    simp only [ReadConfig, runCalls_config_of_no_WriteConfig calls _ h]
    rfl
  · intro d before after config h
    simp only [ReadConfig, runCalls_append, runCalls_config_of_no_WriteConfig after _ h]
    rfl

/-- An instance of **C10**: a new store with a pending transmission stored has no
config; after `WriteConfig` of two configs, the second one is read. -/
theorem ReadConfig_spec_witness :
    (runCalls NewSimulatedDatabase
        [StoreCall.StorePendingTransmission ⟨1, 2, 3⟩ ⟨5, 0, [], []⟩]).ReadConfig =
      .error (.plain "not found") ∧
    (runCalls NewSimulatedDatabase
        ([StoreCall.WriteConfig ⟨1, 1, [], [], 1, [], 1, []⟩] ++
          [StoreCall.WriteConfig ⟨2, 2, [], [], 1, [], 1, []⟩] ++ [])).ReadConfig =
      .ok ⟨2, 2, [], [], 1, [], 1, []⟩ :=
  ⟨ReadConfig_spec.1 _ (by decide), ReadConfig_spec.2 _ _ _ _ (by decide)⟩

/-- A call other than `WriteState` of the digest leaves the state stored under the
digest as it was. -/
theorem apply_states_lookup (d : SimulatedDatabase) (c : StoreCall) (configDigest : ConfigDigest)
    (h : ∀ state, c ≠ StoreCall.WriteState configDigest state) :
    (c.apply d).states.lookup configDigest = d.states.lookup configDigest := by
  cases c with
  | WriteState digest1 state =>
    have hne : configDigest ≠ digest1 := by
      intro heq
      exact h state (by rw [heq])
    show (d.states.insert digest1 state).lookup configDigest = _
    exact AList.lookup_insert_ne hne
  | WriteConfig config => rfl
  | StorePendingTransmission ts tr => rfl
  | DeletePendingTransmission ts => rfl
  | DeletePendingTransmissionsOlderThan tm => rfl

theorem runCalls_states_lookup (calls : List StoreCall) (configDigest : ConfigDigest) :
    ∀ d : SimulatedDatabase,
      (∀ c ∈ calls, ∀ state, c ≠ StoreCall.WriteState configDigest state) →
      (runCalls d calls).states.lookup configDigest = d.states.lookup configDigest := by
  induction calls with
  | nil => intro d _; rfl
  | cons c cs ih =>
    intro d h
    show (runCalls (c.apply d) cs).states.lookup configDigest = _
    rw [ih _ (fun c' hc' => h c' (List.mem_cons_of_mem _ hc')),
      apply_states_lookup d c configDigest (h c (List.mem_cons_self _ _))]

/-- **C11.** For every store, digest and state: `WriteState` returns no error; after
it `ReadState` of the same digest succeeds and returns the state written, whatever
was stored before; `ReadState` of every other digest returns what it returned before;
and on a new store, after any calls that do not write the digest, `ReadState` of the
digest fails with the error "not found". -/
theorem ReadState_WriteState_spec :
    (∀ (d : SimulatedDatabase) (configDigest : ConfigDigest) (state : PersistentState),
      (d.WriteState configDigest state).2 = none ∧
      (d.WriteState configDigest state).1.ReadState configDigest = .ok state ∧
      ∀ other : ConfigDigest, other ≠ configDigest →
        (d.WriteState configDigest state).1.ReadState other = d.ReadState other) ∧
    (∀ (calls : List StoreCall) (configDigest : ConfigDigest),
      (∀ c ∈ calls, ∀ state, c ≠ StoreCall.WriteState configDigest state) →
      (runCalls NewSimulatedDatabase calls).ReadState configDigest =
        .error (.plain "not found")) := by
  constructor
  · intro d configDigest state
    refine ⟨rfl, ?_, ?_⟩
    · simp [ReadState, WriteState]
    · intro other hne
      simp [ReadState, WriteState, AList.lookup_insert_ne hne]
  · intro calls configDigest h
    simp only [ReadState, runCalls_states_lookup calls configDigest _ h]
    rfl

/-- An instance of **C11**: a state written for digest 7 is read back, digest 8 is
not found on a store where only digest 7 was written. -/
theorem ReadState_WriteState_spec_witness :
    ((NewSimulatedDatabase.WriteState 7 ⟨1, 2, [3]⟩).2 = none ∧
      (NewSimulatedDatabase.WriteState 7 ⟨1, 2, [3]⟩).1.ReadState 7 = .ok ⟨1, 2, [3]⟩ ∧
      ∀ other : ConfigDigest, other ≠ 7 →
        (NewSimulatedDatabase.WriteState 7 ⟨1, 2, [3]⟩).1.ReadState other =
          NewSimulatedDatabase.ReadState other) ∧
    (runCalls NewSimulatedDatabase [StoreCall.WriteState 7 ⟨1, 2, [3]⟩]).ReadState 8 =
      .error (.plain "not found") :=
  ⟨ReadState_WriteState_spec.1 NewSimulatedDatabase 7 ⟨1, 2, [3]⟩,
    ReadState_WriteState_spec.2 [StoreCall.WriteState 7 ⟨1, 2, [3]⟩] 8
      (by
        intro c hc state
        simp only [List.mem_singleton] at hc
        subst hc
        simp)⟩

/-- What the loop of `PendingTransmissionsWithConfigDigest` leaves under a timestamp:
the primary record when the timestamp is among the keys and has one, otherwise what
was there before. -/
theorem foldl_collect_lookup (primary : GoMap ReportTimestamp PendingTransmission)
    (keys : List ReportTimestamp) :
    ∀ (acc : GoMap ReportTimestamp PendingTransmission) (ts : ReportTimestamp),
      (keys.foldl
          (fun result key =>
            match primary.lookup key with
            | some value => result.insert key value
            | none => result)
          acc).lookup ts =
        if ts ∈ keys then
          (match primary.lookup ts with
            | some v => some v
            | none => acc.lookup ts)
        else acc.lookup ts := by
  induction keys with
  | nil => intro acc ts; simp
  | cons a as ih =>
    intro acc ts
    simp only [List.foldl_cons, ih, List.mem_cons]
    by_cases hta : ts = a
    · subst hta
      cases hp : primary.lookup ts with
      | none => simp
      | some v => simp
    · cases hp : primary.lookup a with
      | none => simp [hta]
      | some va =>
        simp only [hta, false_or, AList.lookup_insert_ne hta]

/-- **C12.** For every store and digest, `PendingTransmissionsWithConfigDigest` returns
no error, and its map has `ts` mapped to `v` exactly when `ts` is listed under the
digest in the secondary index and the primary map has `ts` mapped to `v`.  A listed
timestamp without primary record is therefore left out, without error. -/
theorem PendingTransmissionsWithConfigDigest_spec (d : SimulatedDatabase)
    (digest : ConfigDigest) :
    (d.PendingTransmissionsWithConfigDigest digest).2 = none ∧
    ∀ (ts : ReportTimestamp) (v : PendingTransmission),
      (d.PendingTransmissionsWithConfigDigest digest).1.lookup ts = some v ↔
        ∃ keys, d.transmitDigestLookup.lookup digest = some keys ∧ ts ∈ keys ∧
          d.pendingTransmit.lookup ts = some v := by
  refine ⟨rfl, ?_⟩
  intro ts v
  unfold PendingTransmissionsWithConfigDigest
  cases hk : d.transmitDigestLookup.lookup digest with
  | none => simp
  | some keys =>
    simp only [foldl_collect_lookup, AList.lookup_empty, Option.some.injEq, exists_eq_left']
    by_cases hmem : ts ∈ keys
    · simp only [hmem, if_true, true_and]
      cases hp : d.pendingTransmit.lookup ts with
      | none => simp
      | some w => simp
    · simp [hmem]

/-- **C13.** For every store and cutoff, `DeletePendingTransmissionsOlderThan` returns
no error and leaves the secondary index, the persistent states and the config as they
were: it changes the primary map only. -/
theorem DeletePendingTransmissionsOlderThan_frame (d : SimulatedDatabase) (tm : Int) :
    (d.DeletePendingTransmissionsOlderThan tm).2 = none ∧
    (d.DeletePendingTransmissionsOlderThan tm).1.transmitDigestLookup =
      d.transmitDigestLookup ∧
    (d.DeletePendingTransmissionsOlderThan tm).1.states = d.states ∧
    (d.DeletePendingTransmissionsOlderThan tm).1.config = d.config :=
  ⟨rfl, rfl, rfl, rfl⟩

/-- **C14.** For every store and timestamp `ts`, `DeletePendingTransmission ts` returns
no error, whether or not `ts` had a record; afterwards `ts` has no record in the
primary map, every other timestamp has the record it had, and the secondary index,
the persistent states and the config are as they were. -/
theorem DeletePendingTransmission_spec (d : SimulatedDatabase) (ts : ReportTimestamp) :
    (d.DeletePendingTransmission ts).2 = none ∧
    (d.DeletePendingTransmission ts).1.pendingTransmit.lookup ts = none ∧
    (∀ other : ReportTimestamp, other ≠ ts →
      (d.DeletePendingTransmission ts).1.pendingTransmit.lookup other =
        d.pendingTransmit.lookup other) ∧
    (d.DeletePendingTransmission ts).1.transmitDigestLookup = d.transmitDigestLookup ∧
    (d.DeletePendingTransmission ts).1.states = d.states ∧
    (d.DeletePendingTransmission ts).1.config = d.config := by
  refine ⟨rfl, ?_, ?_, rfl, rfl, rfl⟩
  · simp [DeletePendingTransmission]
  · intro other hne
    simp [DeletePendingTransmission, AList.lookup_erase_ne hne]

end Ocr2keepers
